import Mathlib

set_option maxHeartbeats 1000000
set_option maxRecDepth 4000

/-!
Shallow embedding of the llmpeg local state-management subsystem
(`src/history.ts`: `HistoryManager`; `src/presets.ts`: `PresetManager`)
and proofs about the frozen claims concerning it.

Conventions of the embedding:
* The mutable `this.history` / `this.customPresets` arrays are passed
  explicitly as `List` values; a mutating method becomes a function from
  the old list (plus its arguments) to the new list (and its return value).
* `Date.now()` and random id generation are environment inputs, passed as
  explicit arguments.
* JavaScript numbers that hold epoch milliseconds are modelled as `Int`;
  counters as `Nat`.
* File persistence is modelled by the trimming step that `save()` performs
  on the in-memory array (`saveTrim`); the actual file write has no
  observable effect on the embedded state.
-/

namespace LLmpeg

/-! ### JavaScript string primitives -/

/-- JavaScript `String.prototype.includes`: substring containment test,
checked on the character lists of the two strings. -/
def listInfix (pat : List Char) : List Char → Bool
  | [] => pat.isEmpty
  | c :: rest => pat.isPrefixOf (c :: rest) || listInfix pat rest

/-- JavaScript `s.includes(pat)`. -/
def jsIncludes (s pat : String) : Bool :=
  listInfix pat.data s.data

/-- JavaScript `s.toLowerCase()` (ASCII core: only basic latin letters
are mapped, which covers every keyword and comparison in the source). -/
def jsToLower (s : String) : String :=
  String.mk (s.data.map Char.toLower)

/-- JavaScript `s.trim()`: strips leading and trailing whitespace. -/
def jsTrim (s : String) : String :=
  String.mk (((s.data.dropWhile Char.isWhitespace).reverse.dropWhile
    Char.isWhitespace).reverse)

/-- Trailing-whitespace-only trim (used by the claim-side rendering of
C3). -/
def jsTrimRight (s : String) : String :=
  String.mk ((s.data.reverse.dropWhile Char.isWhitespace).reverse)

/-- Left-to-right, non-overlapping replacement of every occurrence of
`pat` in the third argument, fuelled by its length (JavaScript
`s.replace(new RegExp(pat, "g"), rep)` for a literal nonempty
pattern). -/
def replaceAllAux (pat rep : List Char) : Nat → List Char → List Char
  | 0, s => s
  | _ + 1, [] => []
  | fuel + 1, c :: rest =>
    if pat.isPrefixOf (c :: rest) then
      rep ++ replaceAllAux pat rep fuel (rest.drop (pat.length - 1))
    else c :: replaceAllAux pat rep fuel rest

/-- JavaScript `s.replace(new RegExp(pat, "g"), rep)` for a literal
pattern with no regex metacharacters (every placeholder name in the
embedded catalog is alphanumeric). -/
def jsReplaceAll (s pat rep : String) : String :=
  if pat.data.isEmpty then s
  else String.mk (replaceAllAux pat.data rep.data s.data.length s.data)

/-! ### HistoryManager data model (`src/history.ts`) -/

/-- Model of `HistoryEntry` from `src/history.ts`.  Optional fields (`model?`,
`category?`, `error?`) are `Option`s. -/
structure HistoryEntry where
  id : String
  prompt : String
  command : String
  provider : String
  model : Option String
  timestamp : Int
  executionCount : Nat
  tags : List String
  isFavorite : Bool
  category : Option String
  error : Option String
deriving DecidableEq

/-- The argument of `HistoryManager.add`:
`Omit<HistoryEntry, "id" | "timestamp" | "executionCount" | "tags" | "isFavorite">`. -/
structure AddInput where
  prompt : String
  command : String
  provider : String
  model : Option String
  category : Option String
  error : Option String
deriving DecidableEq

/-- Model of `maxHistorySize` from `HistoryManager`. -/
def maxHistorySize : Nat := 1000

/-- The order induced by the comparator `(a, b) => b.timestamp - a.timestamp`
passed to the stable JavaScript `Array.prototype.sort`: `a` stays before
`b` when `b.timestamp - a.timestamp <= 0`. -/
def tsDescLe (a b : HistoryEntry) : Prop :=
  b.timestamp ≤ a.timestamp

instance : DecidableRel tsDescLe := fun a b => Int.decLe b.timestamp a.timestamp

instance : IsTrans HistoryEntry tsDescLe :=
  ⟨fun _ _ _ h1 h2 => le_trans h2 h1⟩

instance : IsTotal HistoryEntry tsDescLe :=
  ⟨fun a b => le_total b.timestamp a.timestamp⟩

/-- Model of `this.history.sort((a, b) => b.timestamp - a.timestamp)` — a stable
sort by timestamp descending.  A stable sort's output is determined by
the comparison relation and the input order, so the stable insertion
sort models the engine's sort exactly. -/
def sortByTimestampDesc (l : List HistoryEntry) : List HistoryEntry :=
  l.insertionSort tsDescLe

/-- The in-memory effect of `HistoryManager.save()`: when the entry count
exceeds `maxHistorySize`, sort by timestamp descending and keep the top
`maxHistorySize`; otherwise the array is unchanged.  (The file write
itself is not modelled.) -/
def saveTrim (history : List HistoryEntry) : List HistoryEntry :=
  if history.length > maxHistorySize then
    (sortByTimestampDesc history).take maxHistorySize
  else history

/-- Model of `HistoryManager.autoGenerateTags`: scans the lowercased prompt for
keyword families, pushing tags in source order. -/
def autoGenerateTags (prompt : String) : List String :=
  let lp := (jsToLower prompt)
  (if jsIncludes lp "video" || jsIncludes lp "mp4" || jsIncludes lp "avi"
    then ["video"] else [])
  ++ (if jsIncludes lp "audio" || jsIncludes lp "mp3" || jsIncludes lp "sound"
    then ["audio"] else [])
  ++ (if jsIncludes lp "convert" || jsIncludes lp "to"
    then ["conversion"] else [])
  ++ (if jsIncludes lp "compress" || jsIncludes lp "reduce" || jsIncludes lp "optimize"
    then ["compression"] else [])
  ++ (if jsIncludes lp "gif"
    then ["gif"] else [])
  ++ (if jsIncludes lp "stream" || jsIncludes lp "rtmp" || jsIncludes lp "hls"
    then ["streaming"] else [])
  ++ (if jsIncludes lp "extract"
    then ["extraction"] else [])
  ++ (if jsIncludes lp "resize" || jsIncludes lp "scale" || jsIncludes lp "resolution"
    then ["resize"] else [])

/-- The dedup test of `HistoryManager.add`:
`h.prompt.toLowerCase() === entry.prompt.toLowerCase() && h.command === entry.command`. -/
def matchesAdd (h : HistoryEntry) (inp : AddInput) : Bool :=
  jsToLower h.prompt == jsToLower inp.prompt && h.command == inp.command

/-- The `findIndex` + in-place update step of `HistoryManager.add`: if some
entry matches, the first such entry gets `executionCount++` and
`timestamp = Date.now()` (all other fields untouched) and the updated
array is returned; otherwise `none`. -/
def updateExisting (inp : AddInput) (now : Int) :
    List HistoryEntry → Option (List HistoryEntry)
  | [] => none
  | h :: rest =>
    if matchesAdd h inp then
      some ({ h with executionCount := h.executionCount + 1, timestamp := now } :: rest)
    else
      (updateExisting inp now rest).map (h :: ·)

/-- The new entry built by `HistoryManager.add` when no existing entry
matches. -/
def newEntry (inp : AddInput) (now : Int) (newId : String) : HistoryEntry :=
  { id := newId
    prompt := inp.prompt
    command := inp.command
    provider := inp.provider
    model := inp.model
    timestamp := now
    executionCount := 1
    tags := autoGenerateTags inp.prompt
    isFavorite := false
    category := inp.category
    error := inp.error }

/-- Model of `HistoryManager.add`.  `now` is `Date.now()`; `newId` is the random
hex id (used only when a new entry is created).  Ends with `save()`. -/
def add (history : List HistoryEntry) (inp : AddInput) (now : Int) (newId : String) :
    List HistoryEntry :=
  match updateExisting inp now history with
  | some updated => saveTrim updated
  | none => saveTrim (newEntry inp now newId :: history)

/-- JavaScript truthiness of an optional string field: `undefined` and
`""` are falsy. -/
def optStrTruthy : Option String → Bool
  | some s => s != ""
  | none => false

/-- Model of `HistoryManager.getRecent(limit)`.  JavaScript `Array.prototype.sort`
sorts **in place**, so the call both returns the first `limit` entries of
the sorted array and leaves `this.history` sorted; the pair is
`(returned slice, new store state)`. -/
def getRecent (history : List HistoryEntry) (limit : Nat := 10) :
    List HistoryEntry × List HistoryEntry :=
  let sorted := sortByTimestampDesc history
  (sorted.take limit, sorted)

/-- Model of `HistoryManager.search(query)`: case-insensitive substring match on
prompt, command, any tag, or (when truthy) category; preserves store
order. -/
def search (history : List HistoryEntry) (query : String) : List HistoryEntry :=
  let lq := jsToLower query
  history.filter fun e =>
    jsIncludes (jsToLower e.prompt) lq
    || jsIncludes (jsToLower e.command) lq
    || e.tags.any (fun t => jsIncludes (jsToLower t) lq)
    || (optStrTruthy e.category && jsIncludes (jsToLower (e.category.getD "")) lq)

/-- Milliseconds per day, `24 * 60 * 60 * 1000`. -/
def msPerDay : Int := 24 * 60 * 60 * 1000

/-- Model of `HistoryManager.clearOldEntries(daysToKeep)`: keeps favorites and
entries with `timestamp > now - daysToKeep * msPerDay`; then `save()`
(which may additionally trim); returns
`initialLength - this.history.length` computed after `save()`. -/
def clearOldEntries (history : List HistoryEntry) (daysToKeep : Int) (now : Int) :
    List HistoryEntry × Int :=
  let cutoffTime := now - daysToKeep * msPerDay
  let kept := history.filter fun e => e.isFavorite || decide (cutoffTime < e.timestamp)
  let kept' := saveTrim kept
  (kept', (history.length : Int) - (kept'.length : Int))

/-! ### Export / import (`exportHistory` / `importHistory`)

JSON text serialization is abstracted: the payload is modelled as the
array of records that `JSON.parse` would produce (`RawEntry`, every field
optional), or as a distinguished malformed payload. -/

/-- One element of a parsed JSON history payload: any field may be
absent. -/
structure RawEntry where
  id : Option String
  prompt : Option String
  command : Option String
  provider : Option String
  model : Option String
  timestamp : Option Int
  executionCount : Option Nat
  tags : Option (List String)
  isFavorite : Option Bool
  category : Option String
  error : Option String
deriving DecidableEq

/-- What `JSON.stringify` followed by `JSON.parse` yields for a stored
entry: every stored field present (optional fields pass through). -/
def toRaw (e : HistoryEntry) : RawEntry :=
  { id := some e.id
    prompt := some e.prompt
    command := some e.command
    provider := some e.provider
    model := e.model
    timestamp := some e.timestamp
    executionCount := some e.executionCount
    tags := some e.tags
    isFavorite := some e.isFavorite
    category := e.category
    error := e.error }

/-- Model of `HistoryManager.exportHistory("json")`: a direct structured dump of
the store, in store order (modelled at the parsed-JSON level). -/
def exportHistoryJson (history : List HistoryEntry) : List RawEntry :=
  history.map toRaw

/-- The validity filter of `importHistory`:
`entry.prompt && entry.command && entry.provider` (JavaScript
truthiness, so both absent and empty-string fields are discarded). -/
def isValidRaw (r : RawEntry) : Bool :=
  optStrTruthy r.prompt && optStrTruthy r.command && optStrTruthy r.provider

/-- The entry pushed by `importHistory` for a non-duplicate valid raw
entry: `{...entry, id: entry.id || fresh, timestamp: entry.timestamp || now,
executionCount: entry.executionCount || 1, tags: entry.tags || [],
isFavorite: entry.isFavorite || false}` (JavaScript `||`, so falsy
present values — `""`, `0`, `false` — are also replaced; an array is
always truthy). -/
def mkImported (r : RawEntry) (now : Int) (freshId : String) : HistoryEntry :=
  { id := match r.id with
      | some s => if s = "" then freshId else s
      | none => freshId
    prompt := r.prompt.getD ""
    command := r.command.getD ""
    provider := r.provider.getD ""
    model := r.model
    timestamp := match r.timestamp with
      | some t => if t = 0 then now else t
      | none => now
    executionCount := match r.executionCount with
      | some n => if n = 0 then 1 else n
      | none => 1
    tags := r.tags.getD []
    isFavorite := r.isFavorite.getD false
    category := r.category
    error := r.error }

/-- The duplicate test of `importHistory`:
`h.prompt === entry.prompt && h.command === entry.command` (exact match;
false when the raw field is absent). -/
def rawDupOf (r : RawEntry) (h : HistoryEntry) : Bool :=
  r.prompt == some h.prompt && r.command == some h.command

/-- The `validEntries.forEach` merge loop of `importHistory`: each valid
entry is skipped when an exact (prompt, command) duplicate is already in
the (growing) history, otherwise pushed at the end.  `env i` supplies the
`Date.now()` / random id pair available to the `i`-th iteration. -/
def importEntries (env : Nat → Int × String) :
    Nat → List HistoryEntry → List RawEntry → List HistoryEntry
  | _, hist, [] => hist
  | n, hist, r :: rs =>
    let hist' := if hist.any (rawDupOf r) then hist
      else hist ++ [mkImported r (env n).1 (env n).2]
    importEntries env (n + 1) hist' rs

/-- Parsed import payload: the entry array `JSON.parse` yields, or a
payload on which `JSON.parse` (or the array traversal) throws. -/
inductive ImportData where
  | parsed (entries : List RawEntry)
  | malformed
deriving DecidableEq

/-- The `format` argument of `importHistory` / `exportHistory`. -/
inductive HFormat where
  | json
  | csv
deriving DecidableEq

/-- The errors `importHistory` can throw (wrapped in
"Failed to import history: ..."): the explicit CSV `NotImplemented`
throw, or a JSON parse failure. -/
inductive ImportError where
  | csvNotImplemented
  | invalidJson
deriving DecidableEq

/-- Model of `HistoryManager.importHistory(data, format)`: returns the new store
and either the count of valid entries or the thrown error.  On any throw
the store is unchanged (the throw happens before any mutation). -/
def importHistory (history : List HistoryEntry) (data : ImportData)
    (format : HFormat) (env : Nat → Int × String) :
    List HistoryEntry × Except ImportError Nat :=
  match format with
  | .csv => (history, .error .csvNotImplemented)
  | .json =>
    match data with
    | .malformed => (history, .error .invalidJson)
    | .parsed entries =>
      let validEntries := entries.filter isValidRaw
      let merged := importEntries env 0 history validEntries
      (saveTrim merged, .ok validEntries.length)

/-! ### Key abbreviations used by the claims about `add` -/

/-- The dedup key of a stored entry: case-insensitively lowered prompt
plus exact command. -/
def entryKey (e : HistoryEntry) : String × String :=
  (jsToLower e.prompt, e.command)

/-- The dedup key of an `add` input. -/
def addKey (inp : AddInput) : String × String :=
  (jsToLower inp.prompt, inp.command)

/-- One `add` call: input, `Date.now()`, fresh id. -/
def AddOp : Type := AddInput × Int × String

/-- Run a sequence of `add` calls against a store. -/
def runAdds : List HistoryEntry → List AddOp → List HistoryEntry
  | hist, [] => hist
  | hist, op :: ops => runAdds (add hist op.1 op.2.1 op.2.2) ops

/-! ### PresetManager data model (`src/presets.ts`)

`PresetParameter.default` values can be strings or numbers in the source;
a numeric default is modelled by its decimal string (JavaScript coerces
values to strings both in the normalization `toString()` call and in the
template substitution).  The `required`, `placeholder` and `validation`
metadata fields are not modelled: no embedded operation reads them. -/

/-- Model of `PresetParameter` from `src/presets.ts`. -/
structure PresetParameter where
  name : String
  description : String
  type : String
  options : Option (List String)
  default : Option String
deriving DecidableEq

/-- Model of `Preset` from `src/presets.ts` (the `examples?` field is not
modelled: no embedded operation reads it). -/
structure Preset where
  id : String
  name : String
  description : String
  category : String
  prompt : String
  parameters : Option (List PresetParameter)
  tags : List String
  difficulty : String
  commonUse : Bool
deriving DecidableEq

/-- Model of `CustomPreset extends Preset` with `isCustom`, `createdAt`,
`usageCount`. -/
structure CustomPreset where
  preset : Preset
  isCustom : Bool
  createdAt : Int
  usageCount : Nat
deriving DecidableEq

/-- The fields of `addCustomPreset`'s argument:
`Omit<CustomPreset, "id" | "isCustom" | "createdAt" | "usageCount">`. -/
structure CustomPresetData where
  name : String
  description : String
  category : String
  prompt : String
  parameters : Option (List PresetParameter)
  tags : List String
  difficulty : String
  commonUse : Bool
deriving DecidableEq

/-- Parameter lists below use the anonymous constructor with fields in
order: name, description, type, options, default. -/
def builtInPresets : List Preset := [
  { id := "convert-to-mp4"
    name := "Convert to MP4"
    description := "Convert any video format to MP4 with H.264 codec"
    category := "Video Conversion"
    prompt := "convert {input} to mp4 with h264 codec and aac audio"
    parameters := some [
      ⟨"input", "Input video file", "file", none, none⟩,
      ⟨"quality", "Video quality (CRF value)", "select",
        some ["18 (High)", "23 (Medium)", "28 (Low)"], some "23 (Medium)"⟩]
    tags := ["conversion", "mp4", "h264"]
    difficulty := "beginner"
    commonUse := true },
  { id := "convert-to-webm"
    name := "Convert to WebM"
    description := "Convert video to WebM format for web use"
    category := "Video Conversion"
    prompt := "convert {input} to webm with vp9 codec and opus audio bitrate {audio_bitrate}k"
    parameters := some [
      ⟨"input", "Input video file", "file", none, none⟩,
      ⟨"audio_bitrate", "Audio bitrate in kbps", "number", none, some "128"⟩]
    tags := ["conversion", "webm", "vp9", "web"]
    difficulty := "intermediate"
    commonUse := true },
  { id := "compress-for-web"
    name := "Compress for Web"
    description := "Optimize video for web streaming with adjustable quality"
    category := "Video Compression"
    prompt := "compress {input} for web streaming with {quality} quality, max resolution {resolution}"
    parameters := some [
      ⟨"input", "Input video file", "file", none, none⟩,
      ⟨"quality", "Quality level", "select", some ["high", "medium", "low"], some "medium"⟩,
      ⟨"resolution", "Maximum resolution", "select",
        some ["1080p", "720p", "480p", "360p"], some "720p"⟩]
    tags := ["compression", "web", "streaming"]
    difficulty := "beginner"
    commonUse := true },
  { id := "compress-for-discord"
    name := "Compress for Discord"
    description := "Compress video to fit Discord\x27s file size limits"
    category := "Video Compression"
    prompt := "compress {input} to under {size}MB for Discord upload, maintain aspect ratio"
    parameters := some [
      ⟨"input", "Input video file", "file", none, none⟩,
      ⟨"size", "Target size in MB", "select", some ["8", "25", "50", "100"], some "8"⟩]
    tags := ["compression", "discord", "social"]
    difficulty := "beginner"
    commonUse := true },
  { id := "video-to-gif"
    name := "Video to GIF"
    description := "Convert video segment to animated GIF"
    category := "GIF Creation"
    prompt := "create gif from {input} starting at {start} seconds for {duration} seconds with {fps}fps and width {width}px"
    parameters := some [
      ⟨"input", "Input video file", "file", none, none⟩,
      ⟨"start", "Start time in seconds", "number", none, some "0"⟩,
      ⟨"duration", "Duration in seconds", "number", none, some "5"⟩,
      ⟨"fps", "Frames per second", "number", none, some "10"⟩,
      ⟨"width", "GIF width in pixels", "number", none, some "480"⟩]
    tags := ["gif", "animation", "conversion"]
    difficulty := "intermediate"
    commonUse := true },
  { id := "optimize-gif"
    name := "Optimize GIF"
    description := "Create optimized GIF with better colors and smaller size"
    category := "GIF Creation"
    prompt := "create optimized gif from {input} between {start}-{end} seconds with palette optimization"
    parameters := some [
      ⟨"input", "Input video file", "file", none, none⟩,
      ⟨"start", "Start time in seconds", "number", none, some "0"⟩,
      ⟨"end", "End time in seconds", "number", none, some "5"⟩]
    tags := ["gif", "optimization", "palette"]
    difficulty := "advanced"
    commonUse := false },
  { id := "extract-audio"
    name := "Extract Audio"
    description := "Extract audio track from video file"
    category := "Audio Processing"
    prompt := "extract audio from {input} and save as {format} with {bitrate}k bitrate"
    parameters := some [
      ⟨"input", "Input video file", "file", none, none⟩,
      ⟨"format", "Output audio format", "select",
        some ["mp3", "aac", "wav", "flac", "ogg"], some "mp3"⟩,
      ⟨"bitrate", "Audio bitrate in kbps", "select",
        some ["128", "192", "256", "320"], some "192"⟩]
    tags := ["audio", "extraction", "conversion"]
    difficulty := "beginner"
    commonUse := true },
  { id := "normalize-audio"
    name := "Normalize Audio"
    description := "Normalize audio levels in video"
    category := "Audio Processing"
    prompt := "normalize audio in {input} to {level}dB peak level"
    parameters := some [
      ⟨"input", "Input file", "file", none, none⟩,
      ⟨"level", "Target peak level in dB", "number", none, some "-3"⟩]
    tags := ["audio", "normalization", "loudness"]
    difficulty := "intermediate"
    commonUse := false },
  { id := "trim-video"
    name := "Trim Video"
    description := "Cut video to specific duration"
    category := "Video Editing"
    prompt := "trim {input} from {start} to {end} {copy_mode}"
    parameters := some [
      ⟨"input", "Input video file", "file", none, none⟩,
      ⟨"start", "Start time (HH:MM:SS or seconds)", "string", none, none⟩,
      ⟨"end", "End time (HH:MM:SS or seconds)", "string", none, none⟩,
      ⟨"copy_mode", "Re-encode or copy streams", "select",
        some ["with re-encoding", "without re-encoding (fast)"],
        some "without re-encoding (fast)"⟩]
    tags := ["trim", "cut", "editing"]
    difficulty := "beginner"
    commonUse := true },
  { id := "merge-videos"
    name := "Merge Videos"
    description := "Concatenate multiple videos into one"
    category := "Video Editing"
    prompt := "merge videos {files} into single video with {transition}"
    parameters := some [
      ⟨"files", "Video files to merge (comma-separated)", "string", none, none⟩,
      ⟨"transition", "Transition type", "select",
        some ["no transition", "fade", "dissolve", "wipe"], some "no transition"⟩]
    tags := ["merge", "concatenate", "join"]
    difficulty := "intermediate"
    commonUse := true },
  { id := "add-watermark"
    name := "Add Watermark"
    description := "Add image or text watermark to video"
    category := "Video Editing"
    prompt := "add {watermark_type} watermark \x27{watermark}\x27 to {input} at {position} with {opacity}% opacity"
    parameters := some [
      ⟨"input", "Input video file", "file", none, none⟩,
      ⟨"watermark_type", "Watermark type", "select", some ["text", "image"], some "text"⟩,
      ⟨"watermark", "Watermark text or image path", "string", none, none⟩,
      ⟨"position", "Watermark position", "select",
        some ["top-left", "top-right", "bottom-left", "bottom-right", "center"],
        some "bottom-right"⟩,
      ⟨"opacity", "Opacity percentage", "number", none, some "50"⟩]
    tags := ["watermark", "overlay", "branding"]
    difficulty := "intermediate"
    commonUse := false },
  { id := "resize-video"
    name := "Resize Video"
    description := "Change video resolution while maintaining aspect ratio"
    category := "Video Resizing"
    prompt := "resize {input} to {resolution} maintaining aspect ratio"
    parameters := some [
      ⟨"input", "Input video file", "file", none, none⟩,
      ⟨"resolution", "Target resolution", "select",
        some ["1920x1080", "1280x720", "854x480", "640x360", "custom"], some "1280x720"⟩]
    tags := ["resize", "scale", "resolution"]
    difficulty := "beginner"
    commonUse := true },
  { id := "crop-video"
    name := "Crop Video"
    description := "Crop video to specific aspect ratio"
    category := "Video Resizing"
    prompt := "crop {input} to {aspect_ratio} aspect ratio {position}"
    parameters := some [
      ⟨"input", "Input video file", "file", none, none⟩,
      ⟨"aspect_ratio", "Target aspect ratio", "select",
        some ["16:9", "4:3", "1:1", "9:16", "21:9"], some "16:9"⟩,
      ⟨"position", "Crop position", "select",
        some ["center", "top", "bottom"], some "center"⟩]
    tags := ["crop", "aspect-ratio", "resize"]
    difficulty := "intermediate"
    commonUse := true },
  { id := "add-blur"
    name := "Add Blur Effect"
    description := "Apply blur effect to video or specific region"
    category := "Effects & Filters"
    prompt := "add {blur_type} blur to {input} with intensity {intensity}"
    parameters := some [
      ⟨"input", "Input video file", "file", none, none⟩,
      ⟨"blur_type", "Blur type", "select",
        some ["gaussian", "box", "motion"], some "gaussian"⟩,
      ⟨"intensity", "Blur intensity", "select",
        some ["light", "medium", "heavy"], some "medium"⟩]
    tags := ["blur", "effects", "filter"]
    difficulty := "intermediate"
    commonUse := false },
  { id := "color-correction"
    name := "Color Correction"
    description := "Adjust brightness, contrast, and saturation"
    category := "Effects & Filters"
    prompt := "adjust {input} brightness to {brightness}, contrast to {contrast}, saturation to {saturation}"
    parameters := some [
      ⟨"input", "Input video file", "file", none, none⟩,
      ⟨"brightness", "Brightness (-100 to 100)", "number", none, some "0"⟩,
      ⟨"contrast", "Contrast (-100 to 100)", "number", none, some "0"⟩,
      ⟨"saturation", "Saturation (-100 to 100)", "number", none, some "0"⟩]
    tags := ["color", "correction", "adjustment"]
    difficulty := "intermediate"
    commonUse := false },
  { id := "stabilize-video"
    name := "Stabilize Shaky Video"
    description := "Reduce camera shake in video"
    category := "Effects & Filters"
    prompt := "stabilize shaky video {input} with {strength} stabilization"
    parameters := some [
      ⟨"input", "Input video file", "file", none, none⟩,
      ⟨"strength", "Stabilization strength", "select",
        some ["light", "medium", "strong"], some "medium"⟩]
    tags := ["stabilize", "shake", "smooth"]
    difficulty := "advanced"
    commonUse := false },
  { id := "instagram-square"
    name := "Instagram Square Video"
    description := "Create square video for Instagram feed"
    category := "Social Media"
    prompt := "convert {input} to instagram square video 1080x1080 with {background} background"
    parameters := some [
      ⟨"input", "Input video file", "file", none, none⟩,
      ⟨"background", "Background style for letterboxing", "select",
        some ["black", "white", "blur"], some "blur"⟩]
    tags := ["instagram", "social", "square"]
    difficulty := "beginner"
    commonUse := true },
  { id := "tiktok-vertical"
    name := "TikTok Vertical Video"
    description := "Optimize video for TikTok (9:16 vertical)"
    category := "Social Media"
    prompt := "convert {input} to tiktok vertical format 1080x1920 at {fps}fps"
    parameters := some [
      ⟨"input", "Input video file", "file", none, none⟩,
      ⟨"fps", "Frame rate", "select", some ["30", "60"], some "30"⟩]
    tags := ["tiktok", "social", "vertical"]
    difficulty := "beginner"
    commonUse := true },
  { id := "stream-to-rtmp"
    name := "Stream to RTMP"
    description := "Stream video to RTMP server (Twitch, YouTube, etc)"
    category := "Streaming"
    prompt := "stream {input} to rtmp://{server}/{key} with {bitrate}k bitrate and {preset} preset"
    parameters := some [
      ⟨"input", "Input source (file or device)", "string", none, none⟩,
      ⟨"server", "RTMP server URL", "string", none, none⟩,
      ⟨"key", "Stream key", "string", none, none⟩,
      ⟨"bitrate", "Video bitrate in kbps", "select",
        some ["2500", "4000", "6000", "8000"], some "4000"⟩,
      ⟨"preset", "Encoding preset", "select",
        some ["ultrafast", "superfast", "veryfast", "faster", "fast"], some "veryfast"⟩]
    tags := ["streaming", "rtmp", "live"]
    difficulty := "advanced"
    commonUse := false },
  { id := "extract-frames"
    name := "Extract Frames"
    description := "Extract frames from video as images"
    category := "Advanced"
    prompt := "extract {rate} from {input} as {format} images"
    parameters := some [
      ⟨"input", "Input video file", "file", none, none⟩,
      ⟨"rate", "Extraction rate", "select",
        some ["1 frame per second", "all frames", "1 frame per 5 seconds",
          "1 frame per 10 seconds"], some "1 frame per second"⟩,
      ⟨"format", "Output image format", "select",
        some ["jpg", "png", "bmp"], some "jpg"⟩]
    tags := ["frames", "extraction", "images"]
    difficulty := "intermediate"
    commonUse := false },
  { id := "create-thumbnail"
    name := "Create Video Thumbnail"
    description := "Generate thumbnail from specific time in video"
    category := "Advanced"
    prompt := "create thumbnail from {input} at {time} seconds with {width}x{height} resolution"
    parameters := some [
      ⟨"input", "Input video file", "file", none, none⟩,
      ⟨"time", "Time in seconds", "number", none, some "5"⟩,
      ⟨"width", "Thumbnail width", "number", none, some "1280"⟩,
      ⟨"height", "Thumbnail height", "number", none, some "720"⟩]
    tags := ["thumbnail", "image", "frame"]
    difficulty := "beginner"
    commonUse := true }]

/-! ### PresetManager operations -/

/-- Model of `PresetManager.getAllPresets()`: `[...builtInPresets, ...this.customPresets]`
(customs viewed at their `Preset` supertype). -/
def getAllPresets (customs : List CustomPreset) : List Preset :=
  builtInPresets ++ customs.map (·.preset)

/-- Model of `PresetManager.getPresetById(id)`. -/
def getPresetById (customs : List CustomPreset) (id : String) : Option Preset :=
  (getAllPresets customs).find? (fun p => p.id == id)

/-- The id template of `addCustomPreset`:
`custom-${Date.now()}-${Math.random().toString(36).substr(2, 9)}`.
The two interpolated environment values are passed as the strings they
interpolate to. -/
def customId (nowStr rand : String) : String :=
  "custom-" ++ nowStr ++ "-" ++ rand

/-- The record `addCustomPreset` appends: the data fields plus the
generated id, `isCustom = true`, `createdAt = Date.now()`,
`usageCount = 0`. -/
def mkCustomPreset (data : CustomPresetData) (nowStr rand : String)
    (createdAt : Int) : CustomPreset :=
  { preset := {
      id := customId nowStr rand
      name := data.name
      description := data.description
      category := data.category
      prompt := data.prompt
      parameters := data.parameters
      tags := data.tags
      difficulty := data.difficulty
      commonUse := data.commonUse }
    isCustom := true
    createdAt := createdAt
    usageCount := 0 }

/-- Model of `PresetManager.addCustomPreset(preset)`: appends the new custom
preset, then persists.  `nowStr` and `rand` are the two interpolated id
components; `createdAt` is the second `Date.now()` call. -/
def addCustomPreset (customs : List CustomPreset) (data : CustomPresetData)
    (nowStr rand : String) (createdAt : Int) : List CustomPreset :=
  customs ++ [mkCustomPreset data nowStr rand createdAt]

/-- Model of `PresetManager.updateCustomPreset(id, updates)`: `findIndex` on the
custom list, then `{...old, ...updates}` on the first match; returns the
new list and whether a match was found.  The partial `updates` object is
modelled by the merge function it induces on the matched preset. -/
def updateCustomPreset (customs : List CustomPreset) (id : String)
    (merge : CustomPreset → CustomPreset) : List CustomPreset × Bool :=
  match customs with
  | [] => ([], false)
  | p :: rest =>
    if p.preset.id == id then (merge p :: rest, true)
    else
      let r := updateCustomPreset rest id merge
      (p :: r.1, r.2)

/-- Model of `PresetManager.deleteCustomPreset(id)`: `findIndex` then
`splice(index, 1)`; returns the new list and whether a removal
occurred. -/
def deleteCustomPreset (customs : List CustomPreset) (id : String) :
    List CustomPreset × Bool :=
  match customs with
  | [] => ([], false)
  | p :: rest =>
    if p.preset.id == id then (rest, true)
    else
      let r := deleteCustomPreset rest id
      (p :: r.1, r.2)

/-! ### buildPromptFromPreset -/

/-- The character `(`. -/
def parenChar : Char := Char.ofNat 40

/-- The ASCII core of the JavaScript `\s` class, as matched by the
normalization regex. -/
def jsWs (c : Char) : Bool :=
  c == ' ' || c == '\t' || c == '\n' || c == '\r'

/-- The regex test `value.toString().match(/^(\d+)\s*\(/)` of
`buildPromptFromPreset`: a nonempty leading digit run followed, after
optional whitespace, by `(`; returns the captured digit run. -/
def leadingIntParen (v : String) : Option String :=
  let ds := v.data.takeWhile Char.isDigit
  let rest := (v.data.dropWhile Char.isDigit).dropWhile jsWs
  if ds ≠ [] ∧ rest.head? = some parenChar then some (String.mk ds) else none

/-- Model of `value.split("(")[0]`: the part of the string before the first
`(` (the whole string when none occurs). -/
def beforeParen (v : String) : String :=
  String.mk (v.data.takeWhile (fun c => c ≠ parenChar))

/-- The value normalization of `buildPromptFromPreset`: applied only when
`param.type === "select" && param.options` (an array, even empty, is
truthy); first the leading-integer regex, else truncation at `(` with
`.trim()` (both ends). -/
def normalizeParamValue (p : PresetParameter) (v : String) : String :=
  if p.type == "select" && p.options.isSome then
    match leadingIntParen v with
    | some ds => ds
    | none => if jsIncludes v "\x28" then jsTrim (beforeParen v) else v
  else v

/-- The `{name}` placeholder of a parameter. -/
def placeholder (name : String) : String :=
  "\x7b" ++ name ++ "\x7d"

/-- One iteration of the `preset.parameters.forEach` substitution loop:
`parameters[param.name] ?? param.default`; when a value is present,
replace every occurrence of `{name}` with the normalized value. -/
def substParam (params : List (String × String)) (acc : String)
    (p : PresetParameter) : String :=
  match (params.lookup p.name).or p.default with
  | none => acc
  | some v => jsReplaceAll acc (placeholder p.name) (normalizeParamValue p v)

/-- Model of `PresetManager.buildPromptFromPreset(presetId, parameters)`: throws
`Preset ${presetId} not found` when the id resolves to no preset in the
combined catalog; otherwise folds the substitution loop over the declared
parameters (skipped entirely when the preset declares none).  Pure: the
store state is not touched. -/
def buildPromptFromPreset (customs : List CustomPreset) (presetId : String)
    (params : List (String × String)) : Except String String :=
  match getPresetById customs presetId with
  | none => .error ("Preset " ++ presetId ++ " not found")
  | some preset =>
    match preset.parameters with
    | none => .ok preset.prompt
    | some ps => .ok (ps.foldl (substParam params) preset.prompt)

/-! ### Claim-side rendering (C3)

The following two definitions are written from the words of claim C3,
not from the source, for comparison with `buildPromptFromPreset`:
"normalization is: if the parameter type is select and the value begins
with a leading integer followed by `(`, the leading integer alone;
otherwise, if the value contains `(`, the part before the first `(` with
trailing whitespace trimmed." -/

/-- Modelled from the claim text of C3 (not from the source): the
truncation branch is not restricted to select-typed parameters with
declared options, and trims trailing whitespace only. -/
def claimNormalizeParamValue (p : PresetParameter) (v : String) : String :=
  if p.type == "select" && (leadingIntParen v).isSome then
    (leadingIntParen v).getD v
  else if jsIncludes v "\x28" then jsTrimRight (beforeParen v)
  else v

/-- Modelled from the claim text of C3 (not from the source): rendering
with the claim's normalization. -/
def claimBuildPromptFromPreset (customs : List CustomPreset) (presetId : String)
    (params : List (String × String)) : Except String String :=
  match getPresetById customs presetId with
  | none => .error ("Preset " ++ presetId ++ " not found")
  | some preset =>
    match preset.parameters with
    | none => .ok preset.prompt
    | some ps => .ok (ps.foldl
        (fun acc p =>
          match (params.lookup p.name).or p.default with
          | none => acc
          | some v => jsReplaceAll acc (placeholder p.name) (claimNormalizeParamValue p v))
        preset.prompt)

/-! ### Amended-claim rendering (C3)

Written from the amended wording of C3: normalization applies only to
parameters of type select that declare options; the truncation trims
surrounding whitespace. -/

/-- Amended C3 normalization (claim side): only select-typed parameters
with declared options are normalized. -/
def amendedNormalize (p : PresetParameter) (v : String) : String :=
  if p.type = "select" ∧ p.options ≠ none then
    match leadingIntParen v with
    | some ds => ds
    | none => if jsIncludes v "\x28" then jsTrim (beforeParen v) else v
  else v

/-- Amended C3 rendering (claim side): for each declared parameter, the
caller-supplied value or else the default; when present, every
occurrence of the placeholder is replaced by the amended-normalized
value; placeholders of parameters with neither remain. -/
def amendedRender (preset : Preset) (params : List (String × String)) : String :=
  (preset.parameters.getD []).foldl
    (fun acc p =>
      match (params.lookup p.name).or p.default with
      | none => acc
      | some v => jsReplaceAll acc (placeholder p.name) (amendedNormalize p v))
    preset.prompt

/-! ### Sequences of addCustomPreset calls (C9) -/

/-- One `addCustomPreset` call: data, id timestamp string, id random
suffix, `createdAt`. -/
def AddPresetOp : Type := CustomPresetData × String × String × Int

/-- Run a sequence of `addCustomPreset` calls against a custom catalog. -/
def runAddPresets : List CustomPreset → List AddPresetOp → List CustomPreset
  | cs, [] => cs
  | cs, op :: ops => runAddPresets (addCustomPreset cs op.1 op.2.1 op.2.2.1 op.2.2.2) ops

/-! ### Concrete instances used by counterexamples and witnesses -/

/-- An entry with timestamp `n`, used to exhibit capacity trimming. -/
def stampedEntry (n : Nat) : HistoryEntry :=
  ⟨"i", "p", "c", "pr", none, (n : Int), 1, [], false, none, none⟩

/-- A list of 1001 distinct-timestamp entries. -/
def overfullHistory : List HistoryEntry :=
  (List.range (maxHistorySize + 1)).map stampedEntry

/-- A non-favorited entry whose timestamp equals the
`clearOldEntries(1)` cutoff computed at `now = 2 * msPerDay`. -/
def boundaryEntry : HistoryEntry :=
  ⟨"i", "p", "c", "pr", none, msPerDay, 1, [], false, none, none⟩

/-- A favorited entry with a very old timestamp. -/
def oldFavorite : HistoryEntry :=
  ⟨"f", "fav", "cf", "pr", none, -5000, 2, [], true, none, none⟩

/-- The store reached from empty by `add "a"/"x"` at time 1, `add "b"/"y"`
at time 2, then `add "A"/"x"` at time 3 (a dedup merge that refreshes the
first entry's timestamp in place). -/
def hist10 : List HistoryEntry :=
  add (add (add [] ⟨"a", "x", "p", none, none, none⟩ 1 "i1")
      ⟨"b", "y", "p", none, none, none⟩ 2 "i2")
    ⟨"A", "x", "p", none, none, none⟩ 3 "i3"

/-- A custom preset with one string-typed parameter, for the C3
counterexample. -/
def stringParamPreset : CustomPreset :=
  ⟨⟨"testpreset", "T", "d", "Cat", "{x}", some [⟨"x", "d", "string", none, none⟩],
    [], "beginner", false⟩, true, 0, 0⟩

/-- Custom-preset data for the C9 counterexample. -/
def plainPresetData : CustomPresetData :=
  ⟨"n", "d", "c", "p", none, [], "beginner", false⟩

/-- Two `addCustomPreset` calls with the same millisecond timestamp and
the same random suffix. -/
def collidingCustoms : List CustomPreset :=
  addCustomPreset (addCustomPreset [] plainPresetData "0" "a" 0) plainPresetData "0" "a" 0

/-- Two `addCustomPreset` calls with distinct (timestamp, suffix)
pairs. -/
def twoPresetOps : List AddPresetOp :=
  [(plainPresetData, "1", "a", (5 : Int)), (plainPresetData, "2", "b", (6 : Int))]

/-- A concrete custom preset. -/
def cpA : CustomPreset :=
  ⟨⟨"custom-1-a", "A", "", "c", "p", none, [], "beginner", false⟩, true, 1, 0⟩

/-- A second concrete custom preset. -/
def cpB : CustomPreset :=
  ⟨⟨"custom-2-b", "B", "", "c", "p", none, [], "beginner", false⟩, true, 2, 0⟩

/-- The exact (prompt, command) pair of a stored entry, as compared by
the import duplicate check. -/
def pairKey (e : HistoryEntry) : String × String :=
  (e.prompt, e.command)

/-- The exact (prompt, command) pair a raw payload entry denotes (empty
string for absent fields; for valid entries both fields are present). -/
def rawPair (r : RawEntry) : String × String :=
  (r.prompt.getD "", r.command.getD "")

/-- A fixed environment for import calls in concrete computations. -/
def env0 : Nat → Int × String := fun _ => (0, "")

/-- A store reached by one `add` call whose prompt is the empty string
(accepted by `add`, but falsy on import). -/
def badStore : List HistoryEntry :=
  add [] ⟨"", "c", "p", none, none, none⟩ 5 "id1"

/-- A fully-populated raw entry that passes the import validity check. -/
def rawGood : RawEntry :=
  ⟨some "idA", some "pp", some "cc", some "prov", none, some 7, some 1,
    some [], some false, none, none⟩

/-- A raw entry with an empty (falsy) prompt, discarded on import. -/
def rawBad : RawEntry :=
  ⟨some "idB", some "", some "cc", some "prov", none, some 7, some 1,
    some [], some false, none, none⟩

/-- A store also used in concrete C4 computations: one well-formed
entry. -/
def goodEntry : HistoryEntry :=
  ⟨"idA", "pp", "cc", "prov", none, 7, 1, [], false, none, none⟩

/-- The target `add` input of the C1 counterexample. -/
def tgtInp : AddInput := ⟨"", "c", "p", none, none, none⟩

/-- The `n`-th filler `add` input of the C1 counterexample; its command
is the length-coded string `xx…x` (`n + 1` times), distinct for every
`n` and distinct from `"c"`. -/
def fillInp (n : Nat) : AddInput :=
  ⟨"", String.mk (List.replicate (n + 1) 'x'), "p", none, none, none⟩

/-- The target `add` call, at time 0. -/
def tgtOp : AddOp := (tgtInp, (0 : Int), "t")

/-- The `n`-th filler `add` call, at time `n + 1`. -/
def fillOp (n : Nat) : AddOp := (fillInp n, (n : Int) + 1, "f")

/-- The 1001 `add` calls: the target first, then 1000 distinct fillers. -/
def c1Ops : List AddOp := (tgtOp :: (List.range 999).map fillOp) ++ [fillOp 999]

/-- The entry created by the target call. -/
def newTgt : HistoryEntry := newEntry tgtInp 0 "t"

/-- The entry created by the `n`-th filler call. -/
def newFill (n : Nat) : HistoryEntry := newEntry (fillInp n) ((n : Int) + 1) "f"

/-- Two `add` calls sharing a case-insensitively equal prompt and an
equal command. -/
def smallOps : List AddOp :=
  [(⟨"A", "x", "p", none, none, none⟩, 1, "i"), (⟨"a", "x", "p", none, none, none⟩, 2, "j")]

/-- A stored entry matched case-insensitively by the input
`⟨"A", "x", …⟩`. -/
def mergeBase : HistoryEntry :=
  ⟨"i", "a", "x", "p", none, 1, 1, [], false, none, none⟩

/-! ### Theorems -/

/-- Shared helper: `save()` leaves the array unchanged when it is within
capacity. -/
theorem saveTrim_of_le {l : List HistoryEntry} (h : l.length ≤ maxHistorySize) :
    saveTrim l = l := by
  simp only [saveTrim, gt_iff_lt]
  rw [if_neg (by omega)]

/-- Shared helper: membership in a conditional singleton. -/
theorem mem_ite_nil (b : Bool) (x t : String) :
    (t ∈ if b = true then [x] else []) ↔ (b = true ∧ t = x) := by
  cases b <;> simp

/-- Claim C7: an auto-derived tag `t` is assigned exactly when the
lowercased prompt contains one of the keyword substrings of `t`'s
family; in particular the two sample prompts yield the stated tags. -/
theorem autoGenerateTags_spec :
    (∀ prompt t : String,
      t ∈ autoGenerateTags prompt ↔
        ((jsIncludes (jsToLower prompt) "video" || jsIncludes (jsToLower prompt) "mp4"
            || jsIncludes (jsToLower prompt) "avi") = true ∧ t = "video")
        ∨ ((jsIncludes (jsToLower prompt) "audio" || jsIncludes (jsToLower prompt) "mp3"
            || jsIncludes (jsToLower prompt) "sound") = true ∧ t = "audio")
        ∨ ((jsIncludes (jsToLower prompt) "convert"
            || jsIncludes (jsToLower prompt) "to") = true ∧ t = "conversion")
        ∨ ((jsIncludes (jsToLower prompt) "compress" || jsIncludes (jsToLower prompt) "reduce"
            || jsIncludes (jsToLower prompt) "optimize") = true ∧ t = "compression")
        ∨ (jsIncludes (jsToLower prompt) "gif" = true ∧ t = "gif")
        ∨ ((jsIncludes (jsToLower prompt) "stream" || jsIncludes (jsToLower prompt) "rtmp"
            || jsIncludes (jsToLower prompt) "hls") = true ∧ t = "streaming")
        ∨ (jsIncludes (jsToLower prompt) "extract" = true ∧ t = "extraction")
        ∨ ((jsIncludes (jsToLower prompt) "resize" || jsIncludes (jsToLower prompt) "scale"
            || jsIncludes (jsToLower prompt) "resolution") = true ∧ t = "resize"))
    ∧ autoGenerateTags "convert video.mp4 to webm" = ["video", "conversion"]
    ∧ autoGenerateTags "extract audio as mp3" = ["audio", "extraction"] := by
  refine ⟨fun prompt t => ?_, by decide, by decide⟩
  simp only [autoGenerateTags, List.mem_append, mem_ite_nil]
  tauto

/-- Claim C2: when an insert pushes the store beyond the 1000-entry
capacity, `save()` keeps exactly 1000 entries, sorted by timestamp
descending, all drawn from the old store, and every dropped entry's
timestamp is at most every retained entry's timestamp — with no
exemption for favorites (no favorite hypothesis occurs anywhere). -/
theorem saveTrim_capacity (l : List HistoryEntry) (h : l.length > maxHistorySize) :
    (saveTrim l).length = maxHistorySize
    ∧ (saveTrim l).Pairwise (fun a b => b.timestamp ≤ a.timestamp)
    ∧ (∀ e ∈ saveTrim l, e ∈ l)
    ∧ (∀ e ∈ l, e ∉ saveTrim l → ∀ f ∈ saveTrim l, e.timestamp ≤ f.timestamp) := by
  have hdef : saveTrim l = (sortByTimestampDesc l).take maxHistorySize := by
    simp only [saveTrim]
    rw [if_pos h]
  have hperm : List.Perm (sortByTimestampDesc l) l := List.perm_insertionSort tsDescLe l
  have hsorted : (sortByTimestampDesc l).Pairwise (fun a b => b.timestamp ≤ a.timestamp) :=
    List.sorted_insertionSort tsDescLe l
  refine ⟨?_, ?_, ?_, ?_⟩
  · rw [hdef, List.length_take, hperm.length_eq]
    omega
  · rw [hdef]
    exact hsorted.sublist (List.take_sublist _ _)
  · intro e he
    rw [hdef] at he
    exact hperm.mem_iff.mp (List.mem_of_mem_take he)
  · intro e hel hnot f hf
    rw [hdef] at hnot hf
    have hes : e ∈ sortByTimestampDesc l := hperm.mem_iff.mpr hel
    rw [← List.take_append_drop maxHistorySize (sortByTimestampDesc l)] at hes hsorted
    have hdrop : e ∈ (sortByTimestampDesc l).drop maxHistorySize := by
      rcases List.mem_append.mp hes with h' | h'
      · exact absurd h' hnot
      · exact h'
    exact ((List.pairwise_append.mp hsorted).2.2 f hf e hdrop)

/-- Witness for C2 at a concrete over-capacity store. -/
theorem saveTrim_capacity_witness :
    overfullHistory.length > maxHistorySize
    ∧ (saveTrim overfullHistory).length = maxHistorySize :=
  ⟨by simp [overfullHistory, maxHistorySize], (saveTrim_capacity overfullHistory
    (by simp [overfullHistory, maxHistorySize])).1⟩

/-- Shared helper: a Boolean complement count. -/
theorem countP_bnot {α : Type} (p : α → Bool) (l : List α) :
    l.countP (fun a => !p a) + l.countP p = l.length := by
  induction l with
  | nil => rfl
  | cons a t ih =>
    by_cases h : p a <;> simp [List.countP_cons, h] <;> omega

/-- Claim C5 counterexample: `clearOldEntries(1)` at `now = 2*msPerDay`
removes a non-favorited entry whose timestamp equals the cutoff — an
entry that is *not* older than `now - daysToKeep` days — so the removal
set is not exactly the entries strictly older than the cutoff. -/
theorem clearOldEntries_boundary_cex :
    boundaryEntry.isFavorite = false
    ∧ ¬(boundaryEntry.timestamp < 2 * msPerDay - 1 * msPerDay)
    ∧ (clearOldEntries [boundaryEntry] 1 (2 * msPerDay)).1 = []
    ∧ (clearOldEntries [boundaryEntry] 1 (2 * msPerDay)).2 = 1 := by
  decide

/-- Claim C5 (amended): for a store within capacity,
`clearOldEntries(daysToKeep)` removes exactly the non-favorited entries
with `timestamp ≤ now - daysToKeep` days (not strictly older than the
cutoff: boundary timestamps are removed too), retains every favorited
entry regardless of age, and returns the number removed. -/
theorem clearOldEntries_spec (hist : List HistoryEntry) (days now : Int)
    (hlen : hist.length ≤ maxHistorySize) :
    (clearOldEntries hist days now).1
      = hist.filter (fun e => e.isFavorite || decide (now - days * msPerDay < e.timestamp))
    ∧ (∀ e, e ∈ (clearOldEntries hist days now).1 ↔
        e ∈ hist ∧ (e.isFavorite = true ∨ now - days * msPerDay < e.timestamp))
    ∧ (∀ e ∈ hist, e.isFavorite = true → e ∈ (clearOldEntries hist days now).1)
    ∧ (∀ e ∈ hist, e.isFavorite = false → e.timestamp ≤ now - days * msPerDay →
        e ∉ (clearOldEntries hist days now).1)
    ∧ (clearOldEntries hist days now).2
      = (hist.countP
          (fun e => !e.isFavorite && decide (e.timestamp ≤ now - days * msPerDay)) : Int) := by
  have hfil : (clearOldEntries hist days now).1
      = hist.filter (fun e => e.isFavorite || decide (now - days * msPerDay < e.timestamp)) := by
    simp only [clearOldEntries]
    exact saveTrim_of_le (le_trans (List.length_filter_le _ _) hlen)
  have hmem : ∀ e, e ∈ (clearOldEntries hist days now).1 ↔
      e ∈ hist ∧ (e.isFavorite = true ∨ now - days * msPerDay < e.timestamp) := by
    intro e
    rw [hfil]
    simp [List.mem_filter]
  refine ⟨hfil, hmem, ?_, ?_, ?_⟩
  · intro e he hf
    exact (hmem e).mpr ⟨he, Or.inl hf⟩
  · intro e he hf hts hin
    rcases ((hmem e).mp hin).2 with h' | h'
    · rw [hf] at h'
      cases h'
    · omega
  · have hq : (fun e : HistoryEntry =>
        !(e.isFavorite || decide (now - days * msPerDay < e.timestamp)))
        = (fun e => !e.isFavorite && decide (e.timestamp ≤ now - days * msPerDay)) := by
      funext e
      simp only [Bool.not_or]
      congr 1
      rw [← decide_not]
      congr 1
      exact propext not_lt
    have hc := countP_bnot
      (fun e : HistoryEntry => e.isFavorite || decide (now - days * msPerDay < e.timestamp)) hist
    rw [hq] at hc
    have hlenf : (clearOldEntries hist days now).1.length
        = hist.countP (fun e => e.isFavorite || decide (now - days * msPerDay < e.timestamp)) := by
      rw [hfil, ← List.countP_eq_length_filter]
    have hsnd : (clearOldEntries hist days now).2
        = (hist.length : Int) - ((clearOldEntries hist days now).1.length : Int) := by
      simp only [clearOldEntries]
    rw [hsnd, hlenf]
    omega

/-- Witness for C5 at a concrete two-entry store: the aged favorite is
kept, the boundary-timestamp non-favorite is not. -/
theorem clearOldEntries_spec_witness :
    ([oldFavorite, boundaryEntry] : List HistoryEntry).length ≤ maxHistorySize
    ∧ (clearOldEntries [oldFavorite, boundaryEntry] 1 (2 * msPerDay)).1
      = [oldFavorite, boundaryEntry].filter
          (fun e => e.isFavorite || decide (2 * msPerDay - 1 * msPerDay < e.timestamp)) :=
  ⟨by decide, (clearOldEntries_spec [oldFavorite, boundaryEntry] 1 (2 * msPerDay) (by decide)).1⟩

/-- Claim C10: `getRecent` sorts the backing array in place — in general
its post-state is the timestamp-descending stable sort of the prior
store (same entries, as the permutation shows); on the concrete store
`hist10` (whose dedup-merge left an order that is not
timestamp-descending) the call changes the stored order, after which
`search` and `exportHistory` observe timestamp-descending order instead
of the prior head-first order, with the entry set unchanged. -/
theorem getRecent_sorts_in_place :
    (∀ (hist : List HistoryEntry) (limit : Nat),
      (getRecent hist limit).2 = sortByTimestampDesc hist
      ∧ List.Perm (getRecent hist limit).2 hist
      ∧ (getRecent hist limit).1 = (sortByTimestampDesc hist).take limit)
    ∧ (getRecent hist10 10).2 ≠ hist10
    ∧ search (getRecent hist10 10).2 "" ≠ search hist10 ""
    ∧ List.Perm (search (getRecent hist10 10).2 "") (search hist10 "")
    ∧ exportHistoryJson (getRecent hist10 10).2 ≠ exportHistoryJson hist10 := by
  refine ⟨fun hist limit => ⟨rfl, List.perm_insertionSort tsDescLe hist, rfl⟩,
    by decide, by decide, ?_, by decide⟩
  exact List.Perm.filter _ (List.perm_insertionSort tsDescLe hist10)

/-- Claim C3 counterexample: for a (found) preset whose parameter has
type `string`, the source substitutes the supplied value `"a (b)"`
verbatim, while the claim's normalization (whose truncate-at-`(` branch
is not restricted to select-typed parameters) would substitute `"a"` —
so the claim's description of the rendering is false at this input. -/
theorem buildPromptFromPreset_select_scope_cex :
    buildPromptFromPreset [stringParamPreset] "testpreset" [("x", "a (b)")] = .ok "a (b)"
    ∧ claimBuildPromptFromPreset [stringParamPreset] "testpreset" [("x", "a (b)")] = .ok "a"
    ∧ ("a (b)" : String) ≠ "a" :=
  ⟨rfl, rfl, by decide⟩

/-- Claim C3 (amended): `buildPromptFromPreset` errors with
`Preset <id> not found` exactly when the id resolves to no preset in the
combined catalog; on a found preset it renders `amendedRender`: for each
declared parameter the caller-supplied value or else the default, every
occurrence of `{name}` replaced by the normalized value, where
normalization applies only to parameters of type `select` that declare
`options` (leading-integer extraction, else truncation at the first `(`
trimmed of surrounding whitespace); placeholders with neither value nor
default survive.  The function reads the catalog and mutates nothing. -/
theorem buildPromptFromPreset_amended :
    ∀ (customs : List CustomPreset) (presetId : String) (params : List (String × String)),
      buildPromptFromPreset customs presetId params
        = (match getPresetById customs presetId with
            | none => .error ("Preset " ++ presetId ++ " not found")
            | some preset => .ok (amendedRender preset params))
      ∧ (buildPromptFromPreset customs presetId params
          = .error ("Preset " ++ presetId ++ " not found")
          ↔ getPresetById customs presetId = none) := by
  intro customs presetId params
  have hnorm : normalizeParamValue = amendedNormalize := by
    funext p v
    simp only [normalizeParamValue, amendedNormalize, Bool.and_eq_true, beq_iff_eq,
      Option.isSome_iff_ne_none]
  have hstep : substParam params = (fun acc p =>
      match (List.lookup p.name params).or p.default with
      | none => acc
      | some v => jsReplaceAll acc (placeholder p.name) (amendedNormalize p v)) := by
    funext acc p
    simp only [substParam, hnorm]
  have hmain : buildPromptFromPreset customs presetId params
      = (match getPresetById customs presetId with
          | none => .error ("Preset " ++ presetId ++ " not found")
          | some preset => .ok (amendedRender preset params)) := by
    simp only [buildPromptFromPreset, amendedRender]
    cases hp : getPresetById customs presetId with
    | none => rfl
    | some preset =>
      cases hps : preset.parameters with
      | none => simp [hps]
      | some ps => simp [hps, hstep]
  refine ⟨hmain, ?_⟩
  rw [hmain]
  cases getPresetById customs presetId <;> simp

/-- Claim C8: with an id matching no custom preset (in particular any
built-in id, since those never occur in the custom list that the two
operations search), `updateCustomPreset` and `deleteCustomPreset` return
`false` and change nothing; with a custom id, `deleteCustomPreset`
removes exactly the first matching custom preset; in every case the
built-in segment of the combined catalog is untouched. -/
theorem customPreset_isolation :
    ∀ (customs : List CustomPreset) (id : String) (merge : CustomPreset → CustomPreset),
      (id ∉ customs.map (fun c => c.preset.id) →
        updateCustomPreset customs id merge = (customs, false)
        ∧ deleteCustomPreset customs id = (customs, false))
      ∧ (∀ pre c post, customs = pre ++ c :: post → c.preset.id = id →
          id ∉ pre.map (fun x => x.preset.id) →
          deleteCustomPreset customs id = (pre ++ post, true))
      ∧ (getAllPresets (deleteCustomPreset customs id).1).take builtInPresets.length
          = builtInPresets
      ∧ (getAllPresets (updateCustomPreset customs id merge).1).take builtInPresets.length
          = builtInPresets := by
  intro customs id merge
  refine ⟨?_, ?_, ?_, ?_⟩
  · intro hmem
    induction customs with
    | nil => exact ⟨rfl, rfl⟩
    | cons p rest ih =>
      simp only [List.map_cons, List.mem_cons, not_or] at hmem
      have hne : (p.preset.id == id) = false := by
        simp only [beq_eq_false_iff_ne, ne_eq]
        exact fun h => hmem.1 h.symm
      have ihr := ih hmem.2
      constructor
      · simp only [updateCustomPreset, hne, Bool.false_eq_true, if_false, ihr.1]
      · simp only [deleteCustomPreset, hne, Bool.false_eq_true, if_false, ihr.2]
  · intro pre c post hcs hc hmem
    subst hcs
    induction pre with
    | nil =>
      simp only [List.nil_append, deleteCustomPreset]
      rw [if_pos (by simp [beq_iff_eq, hc])]
    | cons p rest ih =>
      simp only [List.map_cons, List.mem_cons, not_or] at hmem
      have hne : (p.preset.id == id) = false := by
        simp only [beq_eq_false_iff_ne, ne_eq]
        exact fun h => hmem.1 h.symm
      simp only [List.cons_append, deleteCustomPreset, hne, Bool.false_eq_true, if_false]
      rw [List.append_eq, ih hmem.2]
  · simp only [getAllPresets]
    exact List.take_left _ _
  · simp only [getAllPresets]
    exact List.take_left _ _

/-- Witness for C8: a missing id is rejected by both operations without
change, and deleting `cpA`'s id removes exactly `cpA`. -/
theorem customPreset_isolation_witness :
    ("nope" ∉ ([cpA, cpB].map (fun c => c.preset.id)))
    ∧ updateCustomPreset [cpA, cpB] "nope" (fun c => c) = ([cpA, cpB], false)
    ∧ deleteCustomPreset [cpA, cpB] "custom-1-a" = ([cpB], true) := by
  refine ⟨by decide,
    ((customPreset_isolation [cpA, cpB] "nope" (fun c => c)).1 (by decide)).1, ?_⟩
  have h := (customPreset_isolation [cpA, cpB] "custom-1-a" (fun c => c)).2.1
    [] cpA [cpB] rfl rfl (by decide)
  simpa using h

/-- Shared helper: splitting at a separator that occurs in neither left
part is unambiguous. -/
theorem append_dash_inj : ∀ {a₁ : List Char} {a₂ b₁ b₂ : List Char},
    ('-' : Char) ∉ a₁ → ('-' : Char) ∉ a₂ →
    a₁ ++ '-' :: b₁ = a₂ ++ '-' :: b₂ → a₁ = a₂ ∧ b₁ = b₂ := by
  intro a₁
  induction a₁ with
  | nil =>
    intro a₂ b₁ b₂ h₁ h₂ h
    cases a₂ with
    | nil => simpa using h
    | cons y ys =>
      simp only [List.nil_append, List.cons_append, List.cons.injEq] at h
      exact absurd (by rw [h.1]; exact List.mem_cons_self _ _) h₂
  | cons x xs ih =>
    intro a₂ b₁ b₂ h₁ h₂ h
    cases a₂ with
    | nil =>
      simp only [List.nil_append, List.cons_append, List.cons.injEq] at h
      exact absurd (by rw [← h.1]; exact List.mem_cons_self _ _) h₁
    | cons y ys =>
      simp only [List.cons_append, List.cons.injEq] at h
      obtain ⟨hxy, hrest⟩ := h
      have h₁' : ('-' : Char) ∉ xs := fun hm => h₁ (List.mem_cons_of_mem _ hm)
      have h₂' : ('-' : Char) ∉ ys := fun hm => h₂ (List.mem_cons_of_mem _ hm)
      obtain ⟨he, hb⟩ := ih h₁' h₂' hrest
      exact ⟨by rw [hxy, he], hb⟩

/-- Shared helper: the id template is injective as long as the timestamp
component contains no dash. -/
theorem customId_inj {n₁ r₁ n₂ r₂ : String}
    (h₁ : ('-' : Char) ∉ n₁.data) (h₂ : ('-' : Char) ∉ n₂.data)
    (h : customId n₁ r₁ = customId n₂ r₂) : n₁ = n₂ ∧ r₁ = r₂ := by
  have hd := congrArg String.data h
  simp only [customId, String.data_append, List.append_assoc,
    List.cons_append, List.nil_append, List.cons.injEq, true_and] at hd
  obtain ⟨hn, hr⟩ := append_dash_inj h₁ h₂ hd
  exact ⟨String.ext hn, String.ext hr⟩

/-- Shared helper: `addCustomPreset` folds to appending the built
records. -/
theorem runAddPresets_eq : ∀ (ops : List AddPresetOp) (cs : List CustomPreset),
    runAddPresets cs ops
      = cs ++ ops.map (fun op => mkCustomPreset op.1 op.2.1 op.2.2.1 op.2.2.2) := by
  intro ops
  induction ops with
  | nil => intro cs; simp [runAddPresets]
  | cons op ops ih =>
    intro cs
    simp only [runAddPresets, addCustomPreset, ih, List.map_cons]
    simp

/-- Claim C9 counterexample: two `addCustomPreset` calls that fall in
the same millisecond with the same random suffix produce identical ids,
so `id` is not unique across the combined catalog. -/
theorem addCustomPreset_duplicate_cex :
    ¬ ((getAllPresets collidingCustoms).map (fun p => p.id)).Nodup := by
  decide

/-- Claim C9 (amended): every `addCustomPreset` call appends a preset
with `isCustom = true`, `createdAt` = the call's `Date.now()`,
`usageCount = 0`, and id `custom-<now>-<rand>`; such an id is always
distinct from every built-in id, and distinct from all other custom ids
provided the `(Date.now(), random suffix)` pairs of the calls are
pairwise distinct (the code performs no collision check), making `id`
unique across the combined catalog. -/
theorem addCustomPreset_unique (ops : List AddPresetOp)
    (hdash : ∀ op ∈ ops, ('-' : Char) ∉ (op.2.1 : String).data)
    (hpairs : (ops.map (fun op => (op.2.1, op.2.2.1))).Nodup) :
    runAddPresets [] ops
      = ops.map (fun op => mkCustomPreset op.1 op.2.1 op.2.2.1 op.2.2.2)
    ∧ ((getAllPresets (runAddPresets [] ops)).map (fun p => p.id)).Nodup
    ∧ (∀ c ∈ runAddPresets [] ops, c.isCustom = true ∧ c.usageCount = 0
        ∧ ∃ op ∈ ops, c = mkCustomPreset op.1 op.2.1 op.2.2.1 op.2.2.2
          ∧ c.createdAt = op.2.2.2 ∧ c.preset.id = customId op.2.1 op.2.2.1) := by
  have hrun : runAddPresets [] ops
      = ops.map (fun op => mkCustomPreset op.1 op.2.1 op.2.2.1 op.2.2.2) := by
    rw [runAddPresets_eq, List.nil_append]
  refine ⟨hrun, ?_, ?_⟩
  · rw [hrun]
    simp only [getAllPresets, List.map_append, List.map_map]
    rw [List.nodup_append]
    refine ⟨by decide, ?_, ?_⟩
    · have hshape : (List.map ((fun p : Preset => p.id) ∘ (fun c : CustomPreset => c.preset)
          ∘ (fun op : AddPresetOp => mkCustomPreset op.1 op.2.1 op.2.2.1 op.2.2.2)) ops)
          = List.map (fun pr : String × String => customId pr.1 pr.2)
              (List.map (fun op : AddPresetOp => (op.2.1, op.2.2.1)) ops) := by
        rw [List.map_map]
        rfl
      rw [hshape]
      refine List.Nodup.map_on ?_ hpairs
      intro x hx y hy hxy
      obtain ⟨opx, hopx, hex⟩ := List.mem_map.mp hx
      obtain ⟨opy, hopy, hey⟩ := List.mem_map.mp hy
      have hx1 : ('-' : Char) ∉ x.1.data := by
        rw [← hex]
        exact hdash opx hopx
      have hy1 : ('-' : Char) ∉ y.1.data := by
        rw [← hey]
        exact hdash opy hopy
      obtain ⟨h1, h2⟩ := customId_inj hx1 hy1 hxy
      exact Prod.ext h1 h2
    · intro a ha ha'
      obtain ⟨op, hop, rfl⟩ := List.mem_map.mp ha'
      have hpre7 : ((fun p : Preset => p.id) ∘ (fun c : CustomPreset => c.preset)
            ∘ (fun o : AddPresetOp => mkCustomPreset o.1 o.2.1 o.2.2.1 o.2.2.2) <| op).data.take 7
          = ("custom-" : String).data := by
        show (customId op.2.1 op.2.2.1).data.take 7 = ("custom-" : String).data
        have hd : (customId op.2.1 op.2.2.1).data
            = ("custom-" : String).data ++ (op.2.1.data ++ ('-' :: op.2.2.1.data)) := by
          simp [customId]
        rw [hd]
        exact List.take_left' (by decide)
      have hb : ∀ b ∈ builtInPresets.map (fun p : Preset => p.id),
          b.data.take 7 ≠ ("custom-" : String).data := by decide
      exact hb _ ha hpre7
  · intro c hc
    rw [hrun] at hc
    obtain ⟨op, hop, rfl⟩ := List.mem_map.mp hc
    exact ⟨rfl, rfl, op, hop, rfl, rfl, rfl⟩

/-- Witness for C9 at two concrete calls with distinct (timestamp,
suffix) pairs. -/
theorem addCustomPreset_unique_witness :
    (∀ op ∈ twoPresetOps, ('-' : Char) ∉ (op.2.1 : String).data)
    ∧ (twoPresetOps.map (fun op => (op.2.1, op.2.2.1))).Nodup
    ∧ ((getAllPresets (runAddPresets [] twoPresetOps)).map (fun p => p.id)).Nodup :=
  ⟨by decide, by decide,
    (addCustomPreset_unique twoPresetOps (by decide) (by decide)).2.1⟩

/-- Shared helper: an imported entry carries exactly its raw entry's
(prompt, command) pair. -/
theorem pairKey_mkImported (r : RawEntry) (t : Int) (s : String) :
    pairKey (mkImported r t s) = rawPair r := rfl

/-- Shared helper: for a valid raw entry, the duplicate test of the
merge loop holds of a stored entry exactly when that entry carries the
raw entry's (prompt, command) pair. -/
theorem rawDupOf_iff_pair (r : RawEntry) (h : HistoryEntry)
    (hv : isValidRaw r = true) :
    rawDupOf r h = true ↔ pairKey h = rawPair r := by
  rcases hp : r.prompt with _ | p
  · simp [isValidRaw, optStrTruthy, hp] at hv
  · rcases hc : r.command with _ | c
    · simp [isValidRaw, optStrTruthy, hc] at hv
    · simp only [rawDupOf, rawPair, pairKey, hp, hc, Option.getD_some,
        Bool.and_eq_true, beq_iff_eq, Option.some.injEq, Prod.mk.injEq]
      constructor
      · rintro ⟨h1, h2⟩
        exact ⟨h1.symm, h2.symm⟩
      · rintro ⟨h1, h2⟩
        exact ⟨h1.symm, h2.symm⟩

/-- Shared helper: the merge loop of `importHistory`, on an all-valid
payload, appends and only appends: the store grows by a tail whose
members are defaults-filled copies of payload entries that duplicated
nothing in the pre-existing store; no two appended entries share a
(prompt, command) pair and none shares a pair with the pre-existing
store (the duplicate check runs against the growing store); and every
payload entry's pair is present afterwards — so an entry whose pair was
fresh is certainly appended, exactly once. -/
theorem importEntries_spec : ∀ (rs : List RawEntry) (env : Nat → Int × String) (n : Nat)
    (hist : List HistoryEntry),
    (∀ r ∈ rs, isValidRaw r = true) →
    ∃ tail, importEntries env n hist rs = hist ++ tail
      ∧ tail.length ≤ rs.length
      ∧ (∀ x ∈ tail, ∃ i r, r ∈ rs ∧ (∀ h ∈ hist, rawDupOf r h = false)
          ∧ x = mkImported r (env i).1 (env i).2 ∧ pairKey x = rawPair r)
      ∧ (tail.map pairKey).Nodup
      ∧ (∀ x ∈ tail, pairKey x ∉ hist.map pairKey)
      ∧ (∀ r ∈ rs, rawPair r ∈ (hist ++ tail).map pairKey) := by
  intro rs
  induction rs with
  | nil =>
    intro env n hist _
    exact ⟨[], by simp [importEntries], by simp, by simp, by simp, by simp, by simp⟩
  | cons r rs ih =>
    intro env n hist hval
    have hvr : isValidRaw r = true := hval r (List.mem_cons_self _ _)
    have hval' : ∀ r' ∈ rs, isValidRaw r' = true :=
      fun r' hr' => hval r' (List.mem_cons_of_mem _ hr')
    by_cases hdup : hist.any (rawDupOf r) = true
    · obtain ⟨tail, heq, hlen, hsound, hnd, hdisj, hcomp⟩ := ih env (n + 1) hist hval'
      obtain ⟨h0, hh0, hd0⟩ := List.any_eq_true.mp hdup
      have hpair0 : rawPair r ∈ hist.map pairKey := by
        rw [← (rawDupOf_iff_pair r h0 hvr).mp hd0]
        exact List.mem_map_of_mem pairKey hh0
      refine ⟨tail, ?_, by simp only [List.length_cons]; omega, ?_, hnd, hdisj, ?_⟩
      · simp only [importEntries]
        rw [if_pos hdup]
        exact heq
      · intro x hx
        obtain ⟨i, r', hr', hnd', hxe, hpx⟩ := hsound x hx
        exact ⟨i, r', List.mem_cons_of_mem _ hr', hnd', hxe, hpx⟩
      · intro r' hr'
        rcases List.mem_cons.mp hr' with rfl | hr''
        · rw [List.map_append, List.mem_append]
          exact Or.inl hpair0
        · exact hcomp r' hr''
    · have hdup' : ∀ h ∈ hist, rawDupOf r h = false := by
        intro h hh
        rw [Bool.eq_false_iff]
        intro hc
        exact hdup (List.any_eq_true.mpr ⟨h, hh, hc⟩)
      have hmnotin : rawPair r ∉ hist.map pairKey := by
        intro hc
        obtain ⟨h0, hh0, hp0⟩ := List.mem_map.mp hc
        have hf := hdup' h0 hh0
        rw [Bool.eq_false_iff] at hf
        exact hf ((rawDupOf_iff_pair r h0 hvr).mpr hp0)
      obtain ⟨tail, heq, hlen, hsound, hnd, hdisj, hcomp⟩ := ih env (n + 1)
        (hist ++ [mkImported r (env n).1 (env n).2]) hval'
      have hmmem : pairKey (mkImported r (env n).1 (env n).2)
          ∈ (hist ++ [mkImported r (env n).1 (env n).2]).map pairKey := by
        rw [List.map_append, List.mem_append]
        right
        simp
      refine ⟨mkImported r (env n).1 (env n).2 :: tail, ?_,
        by simp only [List.length_cons]; omega, ?_, ?_, ?_, ?_⟩
      · simp only [importEntries]
        rw [if_neg hdup, heq, List.append_assoc]
        rfl
      · intro x hx
        rcases List.mem_cons.mp hx with rfl | hx'
        · exact ⟨n, r, List.mem_cons_self _ _, hdup', rfl, rfl⟩
        · obtain ⟨i, r', hr', hnd', hxe, hpx⟩ := hsound x hx'
          exact ⟨i, r', List.mem_cons_of_mem _ hr',
            fun h hh => hnd' h (List.mem_append_left _ hh), hxe, hpx⟩
      · rw [List.map_cons, List.nodup_cons]
        refine ⟨?_, hnd⟩
        intro hc
        obtain ⟨x, hx, hpx⟩ := List.mem_map.mp hc
        exact hdisj x hx (hpx ▸ hmmem)
      · intro x hx
        rcases List.mem_cons.mp hx with rfl | hx'
        · exact hmnotin
        · intro hc
          exact hdisj x hx' (by rw [List.map_append, List.mem_append]; exact Or.inl hc)
      · intro r' hr'
        have hshape : hist ++ mkImported r (env n).1 (env n).2 :: tail
            = (hist ++ [mkImported r (env n).1 (env n).2]) ++ tail := by
          rw [List.append_assoc]
          rfl
        rcases List.mem_cons.mp hr' with rfl | hr''
        · refine List.mem_map.mpr ⟨mkImported r' (env n).1 (env n).2, ?_, rfl⟩
          rw [List.mem_append, List.mem_cons]
          exact Or.inr (Or.inl rfl)
        · rw [hshape]
          exact hcomp r' hr''

/-- Claim C6: `importHistory` with format `"csv"` throws the
NotImplemented error with the store untouched; a malformed JSON payload
throws with the store untouched; a parsed array yields
`ok (number of valid entries)` — counting entries whose duplicates are
skipped, as the two concrete conjuncts show: a duplicate of the existing
store leaves it unchanged yet counts, and a payload repeating one valid
entry twice inserts it once (the second copy duplicates the *growing*
store) yet returns 2. Within capacity, the new store is the old store
plus a tail that is exactly the valid non-duplicate entries: every tail
member is a defaults-filled valid payload entry that duplicated nothing
pre-existing, no two tail members share a (prompt, command) pair, no
tail member shares a pair with the old store, and every valid payload
entry's pair occurs in the final store — so a valid entry whose pair is
fresh really is appended, exactly once. -/
theorem importHistory_spec :
    ∀ (hist : List HistoryEntry) (env : Nat → Int × String) (entries : List RawEntry),
      importHistory hist (.parsed entries) .csv env = (hist, .error .csvNotImplemented)
      ∧ importHistory hist .malformed .csv env = (hist, .error .csvNotImplemented)
      ∧ importHistory hist .malformed .json env = (hist, .error .invalidJson)
      ∧ (importHistory hist (.parsed entries) .json env).2
          = .ok (entries.filter isValidRaw).length
      ∧ importHistory [mkImported rawGood 0 "x"] (.parsed [rawGood]) .json env
          = ([mkImported rawGood 0 "x"], .ok 1)
      ∧ importHistory [] (.parsed [rawGood, rawGood]) .json env0
          = ([mkImported rawGood 0 ""], .ok 2)
      ∧ (hist.length + (entries.filter isValidRaw).length ≤ maxHistorySize →
          ∃ tail, (importHistory hist (.parsed entries) .json env).1 = hist ++ tail
            ∧ (∀ x ∈ tail, ∃ i r, r ∈ entries ∧ isValidRaw r = true
                ∧ (∀ h ∈ hist, rawDupOf r h = false)
                ∧ x = mkImported r (env i).1 (env i).2 ∧ pairKey x = rawPair r)
            ∧ (tail.map pairKey).Nodup
            ∧ (∀ x ∈ tail, pairKey x ∉ hist.map pairKey)
            ∧ (∀ r ∈ entries, isValidRaw r = true →
                rawPair r ∈ (hist ++ tail).map pairKey)) := by
  intro hist env entries
  refine ⟨rfl, rfl, rfl, rfl, rfl, rfl, ?_⟩
  intro hlen
  obtain ⟨tail, heq, hlen', hsound, hnd, hdisj, hcomp⟩ :=
    importEntries_spec (entries.filter isValidRaw) env 0 hist
      (fun r hr => (List.mem_filter.mp hr).2)
  have hnotrim : (importHistory hist (.parsed entries) .json env).1 = hist ++ tail := by
    show saveTrim (importEntries env 0 hist (entries.filter isValidRaw)) = hist ++ tail
    rw [heq]
    exact saveTrim_of_le (by rw [List.length_append]; omega)
  refine ⟨tail, hnotrim, ?_, hnd, hdisj, ?_⟩
  · intro x hx
    obtain ⟨i, r, hr, hnd', hxe, hpx⟩ := hsound x hx
    have hmf := List.mem_filter.mp hr
    exact ⟨i, r, hmf.1, hmf.2, hnd', hxe, hpx⟩
  · intro r hr hv
    exact hcomp r (List.mem_filter.mpr ⟨hr, hv⟩)

/-- Witness for C6's capacity-bounded merge conjunct at a concrete
two-entry payload (one valid, one with a falsy prompt). -/
theorem importHistory_spec_witness :
    (([] : List HistoryEntry).length + ([rawGood, rawBad].filter isValidRaw).length
        ≤ maxHistorySize)
    ∧ ∃ tail,
        (importHistory [] (.parsed [rawGood, rawBad]) .json env0).1 = [] ++ tail
        ∧ (∀ x ∈ tail, ∃ i r, r ∈ [rawGood, rawBad] ∧ isValidRaw r = true
            ∧ (∀ h ∈ ([] : List HistoryEntry), rawDupOf r h = false)
            ∧ x = mkImported r (env0 i).1 (env0 i).2 ∧ pairKey x = rawPair r)
        ∧ (tail.map pairKey).Nodup
        ∧ (∀ x ∈ tail, pairKey x ∉ ([] : List HistoryEntry).map pairKey)
        ∧ (∀ r ∈ [rawGood, rawBad], isValidRaw r = true →
            rawPair r ∈ (([] : List HistoryEntry) ++ tail).map pairKey) :=
  ⟨by decide,
    (importHistory_spec [] env0 [rawGood, rawBad]).2.2.2.2.2.2 (by decide)⟩

/-- Claim C6 counterexample: a payload entry whose prompt, command and
provider are all *present* — the prompt being the empty string — is
nevertheless discarded and not counted: the import returns 0 and appends
nothing, so "discards entries missing prompt, command, or provider" does
not describe the filter (JavaScript truthiness also discards
empty-string fields). -/
theorem importHistory_falsy_cex :
    rawBad.prompt = some "" ∧ rawBad.command = some "cc" ∧ rawBad.provider = some "prov"
    ∧ importHistory [] (.parsed [rawBad]) .json env0 = ([], .ok 0) :=
  ⟨rfl, rfl, rfl, rfl⟩

/-- Shared helper: the import duplicate test against an exported entry
is exactly the exact (prompt, command) pair test. -/
theorem rawDupOf_toRaw_iff (e h : HistoryEntry) :
    rawDupOf (toRaw e) h = true ↔ (e.prompt = h.prompt ∧ e.command = h.command) := by
  simp [rawDupOf, toRaw]

/-- Shared helper: importing an exported entry whose id, timestamp and
executionCount are truthy reconstructs the entry exactly. -/
theorem mkImported_toRaw (e : HistoryEntry) (hid : e.id ≠ "") (hts : e.timestamp ≠ 0)
    (hc : e.executionCount ≠ 0) (t : Int) (s : String) :
    mkImported (toRaw e) t s = e := by
  rcases e with ⟨id, prompt, command, provider, model, timestamp, executionCount,
    tags, isFavorite, category, error⟩
  simp only [mkImported, toRaw]
  simp_all

/-- Shared helper: importing exported entries with pairwise-distinct
pairs into a store that contains none of those pairs appends them all,
unchanged. -/
theorem importEntries_fresh : ∀ (l acc : List HistoryEntry)
    (env : Nat → Int × String) (n : Nat),
    (∀ e ∈ l, e.id ≠ "" ∧ e.timestamp ≠ 0 ∧ e.executionCount ≠ 0) →
    (l.map pairKey).Nodup →
    (∀ e ∈ l, pairKey e ∉ acc.map pairKey) →
    importEntries env n acc (l.map toRaw) = acc ++ l := by
  intro l
  induction l with
  | nil =>
    intro acc env n _ _ _
    simp [importEntries]
  | cons e l ih =>
    intro acc env n hgood hnd hdisj
    have hdup : acc.any (rawDupOf (toRaw e)) = false := by
      rw [List.any_eq_false]
      intro h hh hc
      have hp := (rawDupOf_toRaw_iff e h).mp hc
      refine hdisj e (List.mem_cons_self _ _) (List.mem_map.mpr ⟨h, hh, ?_⟩)
      simp [pairKey, hp.1, hp.2]
    simp only [List.map_cons, importEntries]
    rw [if_neg (by rw [hdup]; exact Bool.false_ne_true),
      mkImported_toRaw e (hgood e (List.mem_cons_self _ _)).1
        (hgood e (List.mem_cons_self _ _)).2.1 (hgood e (List.mem_cons_self _ _)).2.2]
    rw [ih (acc ++ [e]) env (n + 1)
      (fun e' he' => hgood e' (List.mem_cons_of_mem _ he'))
      ((List.nodup_cons.mp hnd).2) ?_]
    · rw [List.append_assoc]
      rfl
    · intro e' he'
      rw [List.map_append, List.mem_append]
      rintro (hin | hin)
      · exact hdisj e' (List.mem_cons_of_mem _ he') hin
      · simp only [List.map_cons, List.map_nil, List.mem_singleton] at hin
        exact (List.nodup_cons.mp hnd).1 (hin ▸ List.mem_map_of_mem pairKey he')

/-- Shared helper: when every payload entry already has its exact pair
in the store, the merge loop inserts nothing. -/
theorem importEntries_dups : ∀ (rs : List RawEntry) (acc : List HistoryEntry)
    (env : Nat → Int × String) (n : Nat),
    (∀ r ∈ rs, ∃ h ∈ acc, rawDupOf r h = true) →
    importEntries env n acc rs = acc := by
  intro rs
  induction rs with
  | nil =>
    intro acc env n _
    simp [importEntries]
  | cons r rs ih =>
    intro acc env n hdups
    have hd : acc.any (rawDupOf r) = true := by
      obtain ⟨h, hh, hdup⟩ := hdups r (List.mem_cons_self _ _)
      exact List.any_eq_true.mpr ⟨h, hh, hdup⟩
    simp only [importEntries]
    rw [if_pos hd]
    exact ih acc env (n + 1) (fun r' hr' => hdups r' (List.mem_cons_of_mem _ hr'))

/-- Claim C4 counterexample: a store reachable by a single `add` with an
empty prompt exports to JSON, but importing that export into an empty
store yields 0 entries (the empty prompt is falsy, so the entry is
discarded as invalid), not K = 1. -/
theorem export_import_empty_prompt_cex :
    badStore.length = 1
    ∧ (importHistory [] (.parsed (exportHistoryJson badStore)) .json env0).1.length = 0
    ∧ (importHistory [] (.parsed (exportHistoryJson badStore)) .json env0).2 = .ok 0 :=
  ⟨rfl, rfl, rfl⟩

/-- Claim C4 (amended): for a store within capacity whose entries all
have non-empty prompt, command, provider and id, non-zero timestamp and
executionCount, and pairwise-distinct exact (prompt, command) pairs,
importing the JSON export into an empty store reproduces the store
exactly (K entries, all field values equal), and importing the same
export again into the populated store inserts zero additional entries
(every entry is skipped as a duplicate) while still returning K. -/
theorem export_import_roundtrip (hist : List HistoryEntry)
    (hgood : ∀ e ∈ hist, e.prompt ≠ "" ∧ e.command ≠ "" ∧ e.provider ≠ ""
      ∧ e.id ≠ "" ∧ e.timestamp ≠ 0 ∧ e.executionCount ≠ 0)
    (hpairs : (hist.map pairKey).Nodup)
    (hlen : hist.length ≤ maxHistorySize) :
    ∀ env env' : Nat → Int × String,
      importHistory [] (.parsed (exportHistoryJson hist)) .json env
        = (hist, .ok hist.length)
      ∧ importHistory hist (.parsed (exportHistoryJson hist)) .json env'
        = (hist, .ok hist.length) := by
  intro env env'
  have hfilter : (exportHistoryJson hist).filter isValidRaw = hist.map toRaw := by
    refine List.filter_eq_self.mpr ?_
    intro r hr
    obtain ⟨e, he, rfl⟩ := List.mem_map.mp hr
    obtain ⟨h1, h2, h3, _⟩ := hgood e he
    simp [isValidRaw, toRaw, optStrTruthy, h1, h2, h3]
  constructor
  · have hrun : importEntries env 0 [] (hist.map toRaw) = [] ++ hist :=
      importEntries_fresh hist [] env 0 (fun e he => (hgood e he).2.2.2) hpairs (by simp)
    show (saveTrim (importEntries env 0 []
        ((exportHistoryJson hist).filter isValidRaw)),
      Except.ok ((exportHistoryJson hist).filter isValidRaw).length)
      = (hist, Except.ok hist.length)
    rw [hfilter, hrun, List.nil_append, saveTrim_of_le hlen, List.length_map]
  · have hdups : ∀ r ∈ hist.map toRaw, ∃ h ∈ hist, rawDupOf r h = true := by
      intro r hr
      obtain ⟨e, he, rfl⟩ := List.mem_map.mp hr
      exact ⟨e, he, (rawDupOf_toRaw_iff e e).mpr ⟨rfl, rfl⟩⟩
    have hrun := importEntries_dups (hist.map toRaw) hist env' 0 hdups
    show (saveTrim (importEntries env' 0 hist
        ((exportHistoryJson hist).filter isValidRaw)),
      Except.ok ((exportHistoryJson hist).filter isValidRaw).length)
      = (hist, Except.ok hist.length)
    rw [hfilter, hrun, saveTrim_of_le hlen, List.length_map]

/-- Witness for C4 at a one-entry store with well-formed fields. -/
theorem export_import_roundtrip_witness :
    (∀ e ∈ [goodEntry], e.prompt ≠ "" ∧ e.command ≠ "" ∧ e.provider ≠ ""
      ∧ e.id ≠ "" ∧ e.timestamp ≠ 0 ∧ e.executionCount ≠ 0)
    ∧ (([goodEntry].map pairKey).Nodup)
    ∧ importHistory [] (.parsed (exportHistoryJson [goodEntry])) .json env0
        = ([goodEntry], .ok [goodEntry].length) :=
  ⟨by decide, by decide,
    ((export_import_roundtrip [goodEntry] (by decide) (by decide) (by decide))
      env0 env0).1⟩

/-- Shared helper: the dedup test of `add` is exactly the key test. -/
theorem matchesAdd_iff (e : HistoryEntry) (inp : AddInput) :
    matchesAdd e inp = true ↔ entryKey e = addKey inp := by
  simp [matchesAdd, entryKey, addKey, Prod.ext_iff]

/-- Shared helper: the key of a freshly created entry is the input's
key. -/
theorem entryKey_newEntry (inp : AddInput) (now : Int) (newId : String) :
    entryKey (newEntry inp now newId) = addKey inp := rfl

/-- Shared helper: `findIndex` misses exactly when no entry matches. -/
theorem updateExisting_eq_none (inp : AddInput) (now : Int) :
    ∀ hist : List HistoryEntry,
      updateExisting inp now hist = none ↔ ∀ e ∈ hist, matchesAdd e inp = false := by
  intro hist
  induction hist with
  | nil => simp [updateExisting]
  | cons h rest ih =>
    by_cases hm : matchesAdd h inp = true
    · simp [updateExisting, hm]
    · have hm' : matchesAdd h inp = false := Bool.eq_false_iff.mpr hm
      simp [updateExisting, hm', ih, List.forall_mem_cons]

/-- Shared helper: `findIndex` at the first match bumps only that
entry's executionCount and timestamp; every other field, its id and tags
included, and all other entries are untouched. -/
theorem updateExisting_first (inp : AddInput) (now : Int) :
    ∀ (pre : List HistoryEntry) (e : HistoryEntry) (post : List HistoryEntry),
      (∀ e' ∈ pre, matchesAdd e' inp = false) → matchesAdd e inp = true →
      updateExisting inp now (pre ++ e :: post)
        = some (pre ++
            { e with executionCount := e.executionCount + 1, timestamp := now } :: post) := by
  intro pre
  induction pre with
  | nil =>
    intro e post _ hm
    simp [updateExisting, hm]
  | cons p rest ih =>
    intro e post hpre hm
    have hp : matchesAdd p inp = false := hpre p (List.mem_cons_self _ _)
    simp only [List.cons_append, updateExisting, hp, Bool.false_eq_true, if_false]
    rw [List.append_eq, ih e post (fun e' he' => hpre e' (List.mem_cons_of_mem _ he')) hm]
    rfl

/-- Shared helper: a dedup-merging `add` on a within-capacity store. -/
theorem add_merge (hist : List HistoryEntry) (inp : AddInput) (now : Int) (newId : String)
    (pre : List HistoryEntry) (e : HistoryEntry) (post : List HistoryEntry)
    (hsplit : hist = pre ++ e :: post)
    (hpre : ∀ e' ∈ pre, matchesAdd e' inp = false)
    (hm : matchesAdd e inp = true)
    (hlen : hist.length ≤ maxHistorySize) :
    add hist inp now newId
      = pre ++
          { e with executionCount := e.executionCount + 1, timestamp := now } :: post := by
  subst hsplit
  simp only [add]
  rw [updateExisting_first inp now pre e post hpre hm]
  exact saveTrim_of_le (by simpa using hlen)

/-- Shared helper: an `add` that matches nothing creates a new entry at
the head and then saves. -/
theorem add_fresh (hist : List HistoryEntry) (inp : AddInput) (now : Int) (newId : String)
    (hfresh : ∀ e ∈ hist, matchesAdd e inp = false) :
    add hist inp now newId = saveTrim (newEntry inp now newId :: hist) := by
  simp only [add]
  rw [(updateExisting_eq_none inp now hist).mpr hfresh]

/-- Shared helper: running a concatenation of call sequences. -/
theorem runAdds_append : ∀ (l₁ l₂ : List AddOp) (hist : List HistoryEntry),
    runAdds hist (l₁ ++ l₂) = runAdds (runAdds hist l₁) l₂ := by
  intro l₁
  induction l₁ with
  | nil => intro l₂ hist; rfl
  | cons op l₁ ih =>
    intro l₂ hist
    simp only [List.cons_append, runAdds]
    exact ih l₂ _

/-- Shared helper: a within-capacity sequence of `add` calls whose keys
are pairwise distinct and absent from the store stacks fresh entries at
the head. -/
theorem runAdds_fresh : ∀ (ops : List AddOp) (hist : List HistoryEntry),
    (∀ op ∈ ops, ∀ e ∈ hist, entryKey e ≠ addKey op.1) →
    (ops.map (fun op => addKey op.1)).Nodup →
    hist.length + ops.length ≤ maxHistorySize →
    runAdds hist ops
      = (ops.map (fun op => newEntry op.1 op.2.1 op.2.2)).reverse ++ hist := by
  intro ops
  induction ops with
  | nil =>
    intro hist _ _ _
    simp [runAdds]
  | cons op ops ih =>
    intro hist hdisj hnd hlen
    have hfresh : ∀ e ∈ hist, matchesAdd e op.1 = false := by
      intro e he
      rw [Bool.eq_false_iff]
      intro hc
      exact hdisj op (List.mem_cons_self _ _) e he ((matchesAdd_iff e op.1).mp hc)
    have hstep : add hist op.1 op.2.1 op.2.2 = newEntry op.1 op.2.1 op.2.2 :: hist := by
      rw [add_fresh hist op.1 op.2.1 op.2.2 hfresh]
      exact saveTrim_of_le (by simp only [List.length_cons]; simp at hlen; omega)
    have hns : (List.map (fun op : AddOp => addKey op.1) ops).Nodup :=
      (List.nodup_cons.mp hnd).2
    have hdisj' : ∀ op' ∈ ops, ∀ e ∈ newEntry op.1 op.2.1 op.2.2 :: hist,
        entryKey e ≠ addKey op'.1 := by
      intro op' hop' e he
      rcases List.mem_cons.mp he with rfl | he'
      · rw [entryKey_newEntry]
        intro hk
        apply (List.nodup_cons.mp hnd).1
        show addKey op.1 ∈ List.map (fun op => addKey op.1) ops
        rw [hk]
        exact List.mem_map_of_mem _ hop'
      · exact hdisj op' (List.mem_cons_of_mem _ hop') e he'
    simp only [runAdds, hstep]
    rw [ih (newEntry op.1 op.2.1 op.2.2 :: hist) hdisj' hns
      (by simp only [List.length_cons]; simp at hlen ⊢; omega)]
    simp [List.reverse_cons, List.append_assoc]

/-- Shared helper: no filler key is the target key. -/
theorem fillKey_ne_tgtKey (n : Nat) : addKey (fillInp n) ≠ ("", "c") := by
  intro h
  have h2 : String.mk (List.replicate (n + 1) 'x') = "c" :=
    congrArg (fun k : String × String => k.2) h
  have h3 : List.replicate (n + 1) 'x' = ['c'] := congrArg String.data h2
  rw [List.replicate_succ] at h3
  injection h3 with hx _
  exact absurd hx (by decide)

/-- Shared helper: filler keys are pairwise distinct. -/
theorem fillKey_inj {n m : Nat} (h : addKey (fillInp n) = addKey (fillInp m)) : n = m := by
  have h2 : List.replicate (n + 1) 'x' = List.replicate (m + 1) 'x' :=
    congrArg (fun k : String × String => k.2.data) h
  have h3 := congrArg List.length h2
  simp only [List.length_replicate] at h3
  omega

/-- Shared helper: the store built by the target call followed by `k`
filler calls is already sorted by timestamp descending. -/
theorem fill_stack_sorted : ∀ k : Nat,
    List.Sorted tsDescLe ((((List.range k).map newFill).reverse) ++ [newTgt]) := by
  intro k
  induction k with
  | zero => simp
  | succ k ih =>
    rw [List.range_succ, List.map_append, List.reverse_append]
    simp only [List.map_cons, List.map_nil, List.reverse_cons, List.reverse_nil,
      List.nil_append, List.cons_append]
    refine List.sorted_cons.mpr ⟨?_, ih⟩
    intro b hb
    rcases List.mem_append.mp hb with hb | hb
    · obtain ⟨n, hn, rfl⟩ := List.mem_map.mp (List.mem_reverse.mp hb)
      have hn' : n < k := List.mem_range.mp hn
      show (newFill n).timestamp ≤ (newFill k).timestamp
      show ((n : Int) + 1) ≤ ((k : Int) + 1)
      omega
    · rw [List.mem_singleton] at hb
      subst hb
      show newTgt.timestamp ≤ (newFill k).timestamp
      show (0 : Int) ≤ ((k : Int) + 1)
      omega

/-- Claim C1 counterexample: in the 1001-call sequence `c1Ops`, exactly
one call (the first) carries the pair (lowercased `""`, `"c"`), yet
after running all calls from the empty store the store contains zero
entries for that pair — the 1001st insert pushed the store over
capacity, and `save()`'s trimming evicted the oldest entry, which was
the target.  So the dedup invariant is not preserved by arbitrary `add`
sequences. -/
theorem add_dedup_capacity_cex :
    c1Ops.countP (fun op => decide (addKey op.1 = ("", "c"))) = 1
    ∧ (runAdds [] c1Ops).countP (fun e => decide (entryKey e = ("", "c"))) = 0 := by
  have htgt : addKey tgtInp = ("", "c") := by decide
  constructor
  · have hf : ∀ L : List Nat,
        ((L.map fillOp).countP (fun op => decide (addKey op.1 = ("", "c")))) = 0 := by
      intro L
      rw [List.countP_eq_zero]
      intro a ha
      obtain ⟨n, _, rfl⟩ := List.mem_map.mp ha
      simp only [decide_eq_true_eq]
      exact fillKey_ne_tgtKey n
    have h999 : ([fillOp 999].countP (fun op => decide (addKey op.1 = ("", "c")))) = 0 := by
      have := hf [999]
      simpa using this
    simp only [c1Ops, List.countP_append, List.countP_cons, hf, h999]
    have htrue : decide (addKey tgtOp.1 = (("", "c") : String × String)) = true := by
      rw [decide_eq_true_eq]
      exact htgt
    rw [htrue]
    simp
  · have hkeysNd : ((tgtOp :: (List.range 999).map fillOp).map
        (fun op => addKey op.1)).Nodup := by
      simp only [List.map_cons, List.map_map]
      rw [List.nodup_cons]
      constructor
      · intro hc
        obtain ⟨n, hn, he⟩ := List.mem_map.mp hc
        exact fillKey_ne_tgtKey n (he.trans htgt)
      · refine List.Nodup.map_on ?_ (List.nodup_range 999)
        intro n _ m _ h
        exact fillKey_inj h
    have hS : runAdds [] (tgtOp :: (List.range 999).map fillOp)
        = (((tgtOp :: (List.range 999).map fillOp)).map
            (fun op => newEntry op.1 op.2.1 op.2.2)).reverse ++ [] :=
      runAdds_fresh _ [] (fun op _ e he => absurd he (List.not_mem_nil e)) hkeysNd
        (by simp [maxHistorySize])
    have hSshape : runAdds [] (tgtOp :: (List.range 999).map fillOp)
        = ((List.range 999).map newFill).reverse ++ [newTgt] := by
      rw [hS]
      simp only [List.map_cons, List.map_map, List.reverse_cons, List.append_nil]
      rfl
    have hfinal : runAdds [] c1Ops
        = add (runAdds [] (tgtOp :: (List.range 999).map fillOp))
            (fillInp 999) ((999 : Int) + 1) "f" := by
      show runAdds [] ((tgtOp :: (List.range 999).map fillOp) ++ [fillOp 999]) = _
      rw [runAdds_append]
      rfl
    rw [hfinal, hSshape]
    have hfresh : ∀ e ∈ ((List.range 999).map newFill).reverse ++ [newTgt],
        matchesAdd e (fillInp 999) = false := by
      intro e he
      rw [Bool.eq_false_iff]
      intro hc
      have hk := (matchesAdd_iff e (fillInp 999)).mp hc
      rcases List.mem_append.mp he with hb | hb
      · obtain ⟨n, hn, rfl⟩ := List.mem_map.mp (List.mem_reverse.mp hb)
        have hkk : addKey (fillInp n) = addKey (fillInp 999) := hk
        have := fillKey_inj hkk
        have := List.mem_range.mp hn
        omega
      · rw [List.mem_singleton] at hb
        subst hb
        have hkk : addKey tgtInp = addKey (fillInp 999) := hk
        exact fillKey_ne_tgtKey 999 (hkk.symm.trans htgt)
    rw [add_fresh _ _ _ _ hfresh]
    have hcond : (newEntry (fillInp 999) ((999 : Int) + 1) "f"
        :: (((List.range 999).map newFill).reverse ++ [newTgt])).length
        > maxHistorySize := by
      simp [maxHistorySize]
    simp only [saveTrim]
    rw [if_pos hcond]
    have hsorted : List.Sorted tsDescLe (newEntry (fillInp 999) ((999 : Int) + 1) "f"
        :: (((List.range 999).map newFill).reverse ++ [newTgt])) := by
      have h1000 := fill_stack_sorted 1000
      rw [List.range_succ, List.map_append, List.reverse_append] at h1000
      simpa using h1000
    show ((sortByTimestampDesc _).take maxHistorySize).countP _ = 0
    rw [show sortByTimestampDesc (newEntry (fillInp 999) ((999 : Int) + 1) "f"
        :: (((List.range 999).map newFill).reverse ++ [newTgt]))
      = newEntry (fillInp 999) ((999 : Int) + 1) "f"
        :: (((List.range 999).map newFill).reverse ++ [newTgt])
      from hsorted.insertionSort_eq]
    rw [show (newEntry (fillInp 999) ((999 : Int) + 1) "f"
        :: (((List.range 999).map newFill).reverse ++ [newTgt]))
      = (newEntry (fillInp 999) ((999 : Int) + 1) "f"
        :: ((List.range 999).map newFill).reverse) ++ [newTgt] from by simp]
    rw [List.take_left' (by simp [maxHistorySize])]
    rw [List.countP_eq_zero]
    intro e he
    rcases List.mem_cons.mp he with rfl | he'
    · simp only [decide_eq_true_eq]
      exact fillKey_ne_tgtKey 999
    · obtain ⟨n, hn, rfl⟩ := List.mem_map.mp (List.mem_reverse.mp he')
      simp only [decide_eq_true_eq]
      exact fillKey_ne_tgtKey n

/-- Shared helper: the decomposition behind a successful `findIndex`. -/
theorem updateExisting_eq_some (inp : AddInput) (now : Int) :
    ∀ (hist l : List HistoryEntry),
      updateExisting inp now hist = some l →
      ∃ pre e post, hist = pre ++ e :: post
        ∧ (∀ e' ∈ pre, matchesAdd e' inp = false)
        ∧ matchesAdd e inp = true
        ∧ l = pre ++
            { e with executionCount := e.executionCount + 1, timestamp := now } :: post := by
  intro hist
  induction hist with
  | nil =>
    intro l h
    exact absurd h (by simp [updateExisting])
  | cons p rest ih =>
    intro l h
    by_cases hm : matchesAdd p inp = true
    · refine ⟨[], p, rest, rfl, by simp, hm, ?_⟩
      simp only [updateExisting, hm, if_true, Option.some.injEq] at h
      rw [← h]
      rfl
    · have hm' : matchesAdd p inp = false := Bool.eq_false_iff.mpr hm
      simp only [updateExisting, hm', Bool.false_eq_true, if_false] at h
      rcases ho : updateExisting inp now rest with _ | l'
      · rw [ho] at h
        simp at h
      · rw [ho] at h
        simp only [Option.map_some', Option.some.injEq] at h
        obtain ⟨pre, e, post, hsp, hpre, hm2, hl⟩ := ih l' ho
        refine ⟨p :: pre, e, post, by rw [hsp]; rfl, ?_, hm2, ?_⟩
        · intro e' he'
          rcases List.mem_cons.mp he' with rfl | he''
          · exact hm'
          · exact hpre e' he''
        · rw [← h, hl]
          rfl

/-- Shared helper: a nodup list holds each of its members exactly
once. -/
theorem countP_eq_one_of_nodup {α : Type} [DecidableEq α] :
    ∀ (L : List α) (k : α), L.Nodup → k ∈ L →
      L.countP (fun s => decide (s = k)) = 1 := by
  intro L
  induction L with
  | nil =>
    intro k _ hk
    cases hk
  | cons a t ih =>
    intro k hnd hk
    rw [List.countP_cons]
    by_cases hak : a = k
    · have hnotin : k ∉ t := fun hc => (List.nodup_cons.mp hnd).1 (hak ▸ hc)
      have hz : t.countP (fun s => decide (s = k)) = 0 := by
        rw [List.countP_eq_zero]
        intro b hb
        simp only [decide_eq_true_eq]
        intro hbk
        exact hnotin (hbk ▸ hb)
      rw [hz]
      simp [hak]
    · have hk' : k ∈ t := by
        rcases List.mem_cons.mp hk with h | h
        · exact absurd h.symm hak
        · exact h
      rw [ih k (List.nodup_cons.mp hnd).2 hk']
      simp [hak]

/-- Shared helper: the dedup invariant of `add`, carried along any call
sequence whose total set of distinct keys fits within capacity: the
store keys are exactly the processed keys, without duplicates, and each
entry's executionCount counts the processed calls with its key. -/
theorem runAdds_inv : ∀ (ops : List AddOp) (hist : List HistoryEntry)
    (processed : List AddOp),
    (hist.map entryKey).Nodup →
    (∀ k, k ∈ hist.map entryKey ↔ k ∈ processed.map (fun op => addKey op.1)) →
    (∀ e ∈ hist, e.executionCount
        = processed.countP (fun op => decide (addKey op.1 = entryKey e))) →
    ((processed ++ ops).map (fun op => addKey op.1)).toFinset.card ≤ maxHistorySize →
    ((runAdds hist ops).map entryKey).Nodup
    ∧ (∀ k, k ∈ (runAdds hist ops).map entryKey
        ↔ k ∈ (processed ++ ops).map (fun op => addKey op.1))
    ∧ (∀ e ∈ runAdds hist ops, e.executionCount
        = (processed ++ ops).countP (fun op => decide (addKey op.1 = entryKey e))) := by
  intro ops
  induction ops with
  | nil =>
    intro hist processed h1 h2 h3 _
    rw [List.append_nil]
    exact ⟨h1, h2, h3⟩
  | cons op ops ih =>
    intro hist processed h1 h2 h3 hcard
    have hassoc : processed ++ op :: ops = (processed ++ [op]) ++ ops := by
      rw [List.append_assoc]
      rfl
    have hsubtot : (hist.map entryKey).toFinset
        ⊆ ((processed ++ op :: ops).map (fun op => addKey op.1)).toFinset := by
      intro x hx
      rw [List.mem_toFinset] at hx ⊢
      rw [List.map_append, List.mem_append]
      exact Or.inl ((h2 x).mp hx)
    have hk0tot : addKey op.1
        ∈ ((processed ++ op :: ops).map (fun op => addKey op.1)).toFinset := by
      rw [List.mem_toFinset, List.map_append, List.mem_append]
      exact Or.inr (List.mem_map_of_mem _ (List.mem_cons_self _ _))
    have hlistcard : hist.length = (hist.map entryKey).toFinset.card := by
      rw [List.toFinset_card_of_nodup h1, List.length_map]
    have hlen : hist.length ≤ maxHistorySize := by
      calc hist.length = (hist.map entryKey).toFinset.card := hlistcard
        _ ≤ ((processed ++ op :: ops).map (fun op => addKey op.1)).toFinset.card :=
            Finset.card_le_card hsubtot
        _ ≤ maxHistorySize := hcard
    rcases hcase : updateExisting op.1 op.2.1 hist with _ | l
    · -- fresh insert
      have hfresh : ∀ e ∈ hist, matchesAdd e op.1 = false :=
        (updateExisting_eq_none op.1 op.2.1 hist).mp hcase
      have hknotin : addKey op.1 ∉ hist.map entryKey := by
        intro hc
        obtain ⟨e, he, hke⟩ := List.mem_map.mp hc
        have := hfresh e he
        rw [Bool.eq_false_iff] at this
        exact this ((matchesAdd_iff e op.1).mpr hke)
      have hlen1 : hist.length + 1 ≤ maxHistorySize := by
        have hins : insert (addKey op.1) (hist.map entryKey).toFinset
            ⊆ ((processed ++ op :: ops).map (fun op => addKey op.1)).toFinset :=
          Finset.insert_subset_iff.mpr ⟨hk0tot, hsubtot⟩
        have hcardins : (insert (addKey op.1) (hist.map entryKey).toFinset).card
            = (hist.map entryKey).toFinset.card + 1 :=
          Finset.card_insert_of_not_mem (by rw [List.mem_toFinset]; exact hknotin)
        have := Finset.card_le_card hins
        omega
      have hstep : add hist op.1 op.2.1 op.2.2
          = newEntry op.1 op.2.1 op.2.2 :: hist := by
        rw [add_fresh _ _ _ _ hfresh]
        exact saveTrim_of_le (by simp only [List.length_cons]; omega)
      have hinv1 : ((newEntry op.1 op.2.1 op.2.2 :: hist).map entryKey).Nodup := by
        rw [List.map_cons, entryKey_newEntry, List.nodup_cons]
        exact ⟨hknotin, h1⟩
      have hinv2 : ∀ k, k ∈ (newEntry op.1 op.2.1 op.2.2 :: hist).map entryKey
          ↔ k ∈ (processed ++ [op]).map (fun op => addKey op.1) := by
        intro k
        rw [List.map_cons, entryKey_newEntry, List.map_append, List.mem_cons,
          List.mem_append, h2 k]
        simp [or_comm]
      have hinv3 : ∀ e ∈ newEntry op.1 op.2.1 op.2.2 :: hist, e.executionCount
          = (processed ++ [op]).countP (fun op => decide (addKey op.1 = entryKey e)) := by
        intro e he
        rw [List.countP_append, List.countP_singleton]
        rcases List.mem_cons.mp he with rfl | he'
        · have hz : processed.countP
              (fun op' => decide (addKey op'.1 = entryKey (newEntry op.1 op.2.1 op.2.2)))
              = 0 := by
            rw [List.countP_eq_zero]
            intro op' hop'
            simp only [decide_eq_true_eq]
            rw [entryKey_newEntry]
            intro hke
            exact hknotin ((h2 _).mpr (hke ▸ List.mem_map_of_mem _ hop'))
          rw [hz, entryKey_newEntry]
          simp [newEntry]
        · have hne : ¬(addKey op.1 = entryKey e) := by
            intro hke
            exact hknotin (hke ▸ List.mem_map_of_mem entryKey he')
          rw [h3 e he']
          simp [hne]
      have := ih (newEntry op.1 op.2.1 op.2.2 :: hist) (processed ++ [op])
        hinv1 hinv2 hinv3 (by rw [hassoc] at hcard; exact hcard)
      rw [hassoc]
      simp only [runAdds, hstep]
      exact this
    · -- dedup merge
      obtain ⟨pre, e0, post, hsplit, hpre, hm, hl⟩ :=
        updateExisting_eq_some op.1 op.2.1 hist l hcase
      have hke0 : entryKey e0 = addKey op.1 := (matchesAdd_iff e0 op.1).mp hm
      have hstep : add hist op.1 op.2.1 op.2.2 = l := by
        simp only [add, hcase]
        refine saveTrim_of_le ?_
        have : l.length = hist.length := by
          rw [hl, hsplit]
          simp
        omega
      have hkeys_eq : l.map entryKey = hist.map entryKey := by
        rw [hl, hsplit]
        simp only [List.map_append, List.map_cons]
        rfl
      have hk0mem : addKey op.1 ∈ hist.map entryKey := by
        rw [hsplit, List.map_append, List.map_cons, List.mem_append, List.mem_cons]
        exact Or.inr (Or.inl hke0.symm)
      have h1s := h1
      rw [hsplit, List.map_append, List.map_cons] at h1s
      obtain ⟨hndpre, hndcons, hdisj⟩ := List.nodup_append.mp h1s
      have he0pre : entryKey e0 ∉ pre.map entryKey :=
        fun hc => hdisj hc (List.mem_cons_self _ _)
      have he0post : entryKey e0 ∉ post.map entryKey := (List.nodup_cons.mp hndcons).1
      have hinv1 : (l.map entryKey).Nodup := by
        rw [hkeys_eq]
        exact h1
      have hinv2 : ∀ k, k ∈ l.map entryKey
          ↔ k ∈ (processed ++ [op]).map (fun op => addKey op.1) := by
        intro k
        rw [hkeys_eq, List.map_append, List.mem_append, h2 k]
        constructor
        · exact fun h => Or.inl h
        · rintro (h | h)
          · exact h
          · simp only [List.map_cons, List.map_nil, List.mem_singleton] at h
            subst h
            exact (h2 _).mp hk0mem
      have hinv3 : ∀ e ∈ l, e.executionCount
          = (processed ++ [op]).countP (fun op => decide (addKey op.1 = entryKey e)) := by
        intro e he
        rw [List.countP_append, List.countP_singleton]
        rw [hl] at he
        have hothers : ∀ e', e' ∈ pre ∨ e' ∈ post →
            e'.executionCount = processed.countP
              (fun op => decide (addKey op.1 = entryKey e'))
            ∧ ¬(addKey op.1 = entryKey e') := by
          intro e' he'
          have hmem : e' ∈ hist := by
            rw [hsplit]
            rcases he' with h' | h'
            · exact List.mem_append_left _ h'
            · exact List.mem_append_right _ (List.mem_cons_of_mem _ h')
          refine ⟨h3 e' hmem, ?_⟩
          intro hke'
          have : entryKey e' = entryKey e0 := by rw [← hke', hke0]
          rcases he' with h' | h'
          · exact he0pre (this ▸ List.mem_map_of_mem entryKey h')
          · exact he0post (this ▸ List.mem_map_of_mem entryKey h')
        rcases List.mem_append.mp he with hin | hin
        · obtain ⟨hcnt, hne⟩ := hothers e (Or.inl hin)
          rw [hcnt]
          simp [hne]
        · rcases List.mem_cons.mp hin with rfl | hin'
          · have hkb :
                entryKey
                  { e0 with executionCount := e0.executionCount + 1, timestamp := op.2.1 }
                = addKey op.1 := hke0
            rw [hkb]
            have hmem0 : e0 ∈ hist := by
              rw [hsplit]
              exact List.mem_append_right pre (List.mem_cons_self e0 post)
            have hcnt := h3 e0 hmem0
            rw [hke0] at hcnt
            show e0.executionCount + 1
              = processed.countP (fun op' => decide (addKey op'.1 = addKey op.1))
                + if decide (addKey op.1 = addKey op.1) then 1 else 0
            rw [← hcnt]
            simp
          · obtain ⟨hcnt, hne⟩ := hothers e (Or.inr hin')
            rw [hcnt]
            simp [hne]
      have := ih l (processed ++ [op]) hinv1 hinv2 hinv3
        (by rw [hassoc] at hcard; exact hcard)
      rw [hassoc]
      simp only [runAdds, hstep]
      exact this

/-- Claim C1 (amended): for every sequence of `add` calls from the empty
store whose set of distinct (lowercased prompt, exact command) keys has
at most 1000 members (so that capacity trimming never evicts anything),
the resulting store holds exactly one entry per key that occurs, its
executionCount equals the number of calls with that key, and a
dedup-merging call on a within-capacity store rewrites only the first
matching entry's executionCount and timestamp (same id, tags and all
other fields unchanged, no insertion).  Without the key bound the code
violates the claim: see the capacity counterexample. -/
theorem add_dedup_amended (ops : List AddOp)
    (hcard : ((ops.map (fun op => addKey op.1)).toFinset.card ≤ maxHistorySize)) :
    (∀ k ∈ ops.map (fun op => addKey op.1),
        (runAdds [] ops).countP (fun e => decide (entryKey e = k)) = 1
        ∧ (∀ e ∈ runAdds [] ops, entryKey e = k →
            e.executionCount = ops.countP (fun op => decide (addKey op.1 = k))))
    ∧ (∀ (hist : List HistoryEntry) (inp : AddInput) (now : Int) (newId : String)
        (pre : List HistoryEntry) (e : HistoryEntry) (post : List HistoryEntry),
        hist = pre ++ e :: post →
        (∀ e' ∈ pre, matchesAdd e' inp = false) →
        matchesAdd e inp = true →
        hist.length ≤ maxHistorySize →
        add hist inp now newId = pre ++
          { e with executionCount := e.executionCount + 1, timestamp := now } :: post) := by
  constructor
  · obtain ⟨h1, h2, h3⟩ := runAdds_inv ops [] []
      (by simp) (by simp) (by simp) (by simpa using hcard)
    intro k hk
    have hkmem : k ∈ (runAdds [] ops).map entryKey := by
      rw [h2 k, List.nil_append]
      exact hk
    constructor
    · have hcnt := countP_eq_one_of_nodup ((runAdds [] ops).map entryKey) k h1 hkmem
      rw [List.countP_map] at hcnt
      exact hcnt
    · intro e he hke
      have := h3 e he
      rw [List.nil_append] at this
      rw [this, hke]
  · intro hist inp now newId pre e post hsplit hpre hm hlen
    exact add_merge hist inp now newId pre e post hsplit hpre hm hlen

/-- Witness for C1 at a two-call sequence sharing one case-insensitive
key, plus a concrete dedup-merge call. -/
theorem add_dedup_amended_witness :
    ((smallOps.map (fun op => addKey op.1)).toFinset.card ≤ maxHistorySize)
    ∧ (runAdds [] smallOps).countP (fun e => decide (entryKey e = ("a", "x"))) = 1
    ∧ add [mergeBase] ⟨"A", "x", "q", none, none, none⟩ 5 "z"
        = [] ++
          { mergeBase with executionCount := mergeBase.executionCount + 1, timestamp := 5 }
          :: [] := by
  refine ⟨by decide, ?_, ?_⟩
  · exact ((add_dedup_amended smallOps (by decide)).1 ("a", "x") (by decide)).1
  · exact (add_dedup_amended smallOps (by decide)).2 [mergeBase]
      ⟨"A", "x", "q", none, none, none⟩ 5 "z" [] mergeBase [] rfl
      (by simp) (by decide) (by decide)

end LLmpeg
